import Mathlib

/-!
Shallow embedding of source/lib/allocators/headerless.cpp, the 0 A.D.
headerless pool-based heap allocator.

Machine model: the 32-bit platform the code targets.  size_t, uintptr_t and
pointers are 32 bits wide, so sizeof(FreedBlock) = 20 (five 4-byte fields:
m_magic, prev, next, m_size, m_id) and numRangeLists =
sizeof(uintptr_t)*CHAR_BIT = 32.  Addresses are pool offsets; the pool base
is the constant 0.

Memory holding boundary tags is modelled at FreedBlock-record granularity: a
read at an address yields the record most recently written there, and memory
the allocator never wrote is modelled as holding the poison pattern, which
fails the IsFreedBlock check.  (The source acknowledges that its boundary-tag
probes are heuristic over raw bytes; the model assumes user data never forges
a tag.)  The doubly-linked list threaded through the free blocks by RangeList
is modelled as the Lean list of block addresses between sentinel.next and the
sentinel, in forward order; the prev and next link fields of the records are
otherwise carried verbatim.  debug_assert is a runtime check with no state
effect and is not modelled; the theorems below establish the checked facts
where a claim asks for them.
-/

/-- static const size_t minAlignment = 16. -/
def minAlignment : ℕ := 16

/-- sizeof(FreedBlock) on the 32-bit platform: five 4-byte fields. -/
def sizeofFreedBlock : ℕ := 20

/-- the pool base address; addresses in the model are offsets from it. -/
def poolBase : ℕ := 0

/-- static const uintptr_t s_magic = 0xFF55AA00 (FreedBlock). -/
def s_magic : ℕ := 0xFF55AA00

/-- static const u32 s_headerId = 0x111E8E6Fu (BoundaryTagManager). -/
def s_headerId : ℕ := 0x111E8E6F

/-- static const u32 s_footerId = 0x4D745342u (BoundaryTagManager). -/
def s_footerId : ℕ := 0x4D745342

/-- the FreedBlock record: magic and id at both ends of the class, the
RangeList link fields and the total block size in between. -/
structure FreedBlock where
  m_magic : ℕ
  prev : ℕ
  next : ℕ
  m_size : ℕ
  m_id : ℕ
deriving DecidableEq

/-- FreedBlock::IsFreedBlock(id): m_id and m_magic both match. -/
def FreedBlock.IsFreedBlock (b : FreedBlock) (id : ℕ) : Bool :=
  if b.m_id ≠ id then false
  else if b.m_magic ≠ s_magic then false
  else true

/-- the record left behind by the destructor of FreedBlock: prev = next = 0,
m_id = 0, m_size = all ones of the 32-bit size_t (the value of the
assignment m_size = not 0u), m_magic = 0. -/
def poisonedBlock : FreedBlock :=
  { m_magic := 0, prev := 0, next := 0, m_size := 2 ^ 32 - 1, m_id := 0 }

/-- IsValidSize(size): rejects size < sizeof(FreedBlock) and sizes that are
not multiples of minAlignment. -/
def IsValidSize (size : ℕ) : Bool :=
  if size < sizeofFreedBlock then false
  else if size % minAlignment ≠ 0 then false
  else true

/-- pool memory at FreedBlock-record granularity. -/
abbrev Memory : Type := ℕ → FreedBlock

/-- writing one FreedBlock record at address p.  A record write in the
program is 20 raw bytes, so two records whose byte ranges overlap clobber
each other; this record-granularity model is byte-faithful only while every
pair of live tag records occupies disjoint ranges, i.e. while every tagged
free block is at least 2 * sizeof(FreedBlock) bytes.  Theorems whose runs
write tags on smaller blocks must not rely on this model (see the C2
finding: the source accepts such blocks and corrupts its own tags). -/
def Memory.write (m : Memory) (p : ℕ) (r : FreedBlock) : Memory :=
  fun a => if a = p then r else m a

/-- memory the allocator never wrote: the poison pattern everywhere. -/
def blankMemory : Memory := fun _ => poisonedBlock

/-- AddressOrder::ShouldInsertBefore: pointer comparison current < successor. -/
def AddressOrder.ShouldInsertBefore (current successor : ℕ) : Bool :=
  decide (current < successor)

/-- the loop of RangeList::Insert: walk forward from the sentinel and place
the new block before the first successor for which ShouldInsertBefore holds. -/
def insertAddressOrdered (freedBlock : ℕ) : List ℕ → List ℕ
  | [] => [freedBlock]
  | successor :: rest =>
    if AddressOrder.ShouldInsertBefore freedBlock successor then
      freedBlock :: successor :: rest
    else
      successor :: insertAddressOrdered freedBlock rest

/-- the loop of RangeList::Find: first block (forward order) whose size,
read from its header record, is at least minSize. -/
def findFirstFit (mem : Memory) (minSize : ℕ) : List ℕ → Option ℕ
  | [] => none
  | freedBlock :: rest =>
    if (mem freedBlock).m_size ≥ minSize then some freedBlock
    else findFirstFit mem minSize rest

/-- RangeList: the blocks of the circular doubly-linked list, in forward
order from sentinel.next up to the sentinel, plus the two counters. -/
structure RangeList where
  blocks : List ℕ
  m_freeBlocks : ℕ
  m_freeBytes : ℕ
deriving DecidableEq

/-- RangeList::Reset. -/
def RangeList.Reset : RangeList :=
  { blocks := [], m_freeBlocks := 0, m_freeBytes := 0 }

/-- RangeList::Insert with the AddressOrder policy. -/
def RangeList.Insert (mem : Memory) (rl : RangeList) (freedBlock : ℕ) : RangeList :=
  { blocks := insertAddressOrdered freedBlock rl.blocks,
    m_freeBlocks := rl.m_freeBlocks + 1,
    m_freeBytes := rl.m_freeBytes + (mem freedBlock).m_size }

/-- RangeList::Find. -/
def RangeList.Find (mem : Memory) (rl : RangeList) (minSize : ℕ) : Option ℕ :=
  findFirstFit mem minSize rl.blocks

/-- RangeList::Remove: unlink the given block; decrement the counters. -/
def RangeList.Remove (mem : Memory) (rl : RangeList) (freedBlock : ℕ) : RangeList :=
  { blocks := rl.blocks.erase freedBlock,
    m_freeBlocks := rl.m_freeBlocks - 1,
    m_freeBytes := rl.m_freeBytes - (mem freedBlock).m_size }

/-- RangeList::IsEmpty. -/
def RangeList.IsEmpty (rl : RangeList) : Bool :=
  decide (rl.m_freeBlocks = 0)

/-- coherence of a RangeList with its counters: the counters record the
number of listed blocks and the total of their sizes as read from memory. -/
def RangeList.Coherent (mem : Memory) (rl : RangeList) : Prop :=
  rl.m_freeBlocks = rl.blocks.length ∧
  rl.m_freeBytes = (rl.blocks.map fun a => (mem a).m_size).sum

/-- fuel-driven core of ceil_log2; the fuel only bounds the recursion depth
and never runs out when it is at least the argument. -/
def clogAux : ℕ → ℕ → ℕ
  | 0, _ => 0
  | fuel + 1, x => if x ≤ 1 then 0 else clogAux fuel ((x + 1) / 2) + 1

/-- Modelled from the spec: ceil_log2 from lib/bits.h, which is not part of
src/.  The spec defines the size-class function by ceil_log2 with class i > 0
covering sizes in the half-open-below interval from 2^(i-1) exclusive to 2^i
inclusive; this is the ceiling of the base-2 logarithm, 0 at inputs 0 and 1.
The theorem ceil_log2_eq_clog below identifies it with Nat.clog 2. -/
def ceil_log2 (x : ℕ) : ℕ := clogAux x x

/-- SegregatedRangeLists::SizeClass(size) = ceil_log2((uint)size); sizes are
below 2^32 on the modelled platform, so the cast truncates nothing. -/
def sizeClassOf (size : ℕ) : ℕ := ceil_log2 size

/-- the BIT macro: 1u shifted left. -/
def BIT (n : ℕ) : ℕ := 1 <<< n

/-- 32-bit complement, the value of applying the C tilde operator to a u32. -/
def u32not (x : ℕ) : ℕ := 2 ^ 32 - 1 - x

/-- SegregatedRangeLists::ValueOfLeastSignificantOneBit(x) = x & -x, two's
complement negation at the 32-bit word width of the modelled platform. -/
def ValueOfLeastSignificantOneBit (x : ℕ) : ℕ := x &&& (2 ^ 32 - x)

/-- static const size_t numRangeLists = sizeof(uintptr_t)*CHAR_BIT. -/
def numRangeLists : ℕ := 32

/-- SegregatedRangeLists: one RangeList per size class (indices 0 to
numRangeLists-1 are meaningful) and the non-empty-class bitmap. -/
structure SegregatedRangeLists where
  rangeLists : ℕ → RangeList
  m_bitmap : ℕ

/-- SegregatedRangeLists::Reset. -/
def SegregatedRangeLists.Reset : SegregatedRangeLists :=
  { rangeLists := fun _ => RangeList.Reset, m_bitmap := 0 }

/-- SegregatedRangeLists::Insert: route by size class, set the bitmap bit. -/
def SegregatedRangeLists.Insert (mem : Memory) (srl : SegregatedRangeLists)
    (freedBlock : ℕ) : SegregatedRangeLists :=
  let sizeClass := sizeClassOf (mem freedBlock).m_size
  { rangeLists := Function.update srl.rangeLists sizeClass
      (RangeList.Insert mem (srl.rangeLists sizeClass) freedBlock),
    m_bitmap := srl.m_bitmap ||| BIT sizeClass }

/-- the while loop of SegregatedRangeLists::Find: extract the least
significant one bit of the mask, clear it, and consult that class.  The
first argument is fuel bounding the recursion depth; since every iteration
clears a set bit of the mask, fuel equal to the mask never runs out. -/
def findLoopAux (mem : Memory) (srl : SegregatedRangeLists) (minSize : ℕ) :
    ℕ → ℕ → Option ℕ
  | 0, _ => none
  | fuel + 1, sizeClassBits =>
    if sizeClassBits = 0 then none
    else
      let size := ValueOfLeastSignificantOneBit sizeClassBits
      let sizeClass := sizeClassOf size
      match RangeList.Find mem (srl.rangeLists sizeClass) minSize with
      | some freedBlock => some freedBlock
      | none => findLoopAux mem srl minSize fuel (sizeClassBits &&& u32not size)

/-- SegregatedRangeLists::Find: mask the bitmap to classes at or above the
requested one — bitmap & (~0u << minSizeClass), a 32-bit shift — then scan
the remaining classes from the least significant set bit upward. -/
def SegregatedRangeLists.Find (mem : Memory) (srl : SegregatedRangeLists)
    (minSize : ℕ) : Option ℕ :=
  let minSizeClass := sizeClassOf minSize
  let sizeClassBits := srl.m_bitmap &&& (((2 ^ 32 - 1) <<< minSizeClass) % 2 ^ 32)
  findLoopAux mem srl minSize sizeClassBits sizeClassBits

/-- SegregatedRangeLists::Remove: route by size class; clear the bitmap bit
if the class list became empty (bitwise-and with the 32-bit complement). -/
def SegregatedRangeLists.Remove (mem : Memory) (srl : SegregatedRangeLists)
    (freedBlock : ℕ) : SegregatedRangeLists :=
  let sizeClass := sizeClassOf (mem freedBlock).m_size
  let rl := RangeList.Remove mem (srl.rangeLists sizeClass) freedBlock
  { rangeLists := Function.update srl.rangeLists sizeClass rl,
    m_bitmap := if rl.IsEmpty then srl.m_bitmap &&& u32not (BIT sizeClass)
                else srl.m_bitmap }

/-- SegregatedRangeLists::FreeBlocks: total over all classes. -/
def SegregatedRangeLists.FreeBlocks (srl : SegregatedRangeLists) : ℕ :=
  ∑ i ∈ Finset.range numRangeLists, (srl.rangeLists i).m_freeBlocks

/-- SegregatedRangeLists::FreeBytes: total over all classes. -/
def SegregatedRangeLists.FreeBytes (srl : SegregatedRangeLists) : ℕ :=
  ∑ i ∈ Finset.range numRangeLists, (srl.rangeLists i).m_freeBytes

/-- BoundaryTagManager: the independent tally of tagged free blocks. -/
structure BoundaryTagManager where
  m_freeBlocks : ℕ
  m_freeBytes : ℕ
deriving DecidableEq

/-- BoundaryTagManager::BoundaryTagManager(). -/
def BoundaryTagManager.init : BoundaryTagManager :=
  { m_freeBlocks := 0, m_freeBytes := 0 }

/-- BoundaryTagManager::FreeBlocks. -/
def BoundaryTagManager.FreeBlocks (btm : BoundaryTagManager) : ℕ :=
  btm.m_freeBlocks

/-- BoundaryTagManager::FreeBytes. -/
def BoundaryTagManager.FreeBytes (btm : BoundaryTagManager) : ℕ :=
  btm.m_freeBytes

/-- BoundaryTagManager::WriteTags(p, size): place a header record at p and a
footer record at p + size - sizeof(FreedBlock), both carrying size and the
magic; the placement constructors initialise m_magic, m_size and m_id only,
so the link fields keep whatever the memory held.  Increment the counters.
Returns the new memory, the new counters and the header address.  For
size < 2 * sizeof(FreedBlock) the two records overlap in the program and
the footer bytes overwrite part of the header — a corruption the
record-granularity memory drops (see Memory.write); theorems about states
holding such blocks are confined to claim C2, which exhibits the overlap
itself. -/
def BoundaryTagManager.WriteTags (btm : BoundaryTagManager) (mem : Memory)
    (p size : ℕ) : Memory × BoundaryTagManager × ℕ :=
  let mem1 := mem.write p
    { m_magic := s_magic, prev := (mem p).prev, next := (mem p).next,
      m_size := size, m_id := s_headerId }
  let footerAddr := p + size - sizeofFreedBlock
  let mem2 := mem1.write footerAddr
    { m_magic := s_magic, prev := (mem1 footerAddr).prev,
      next := (mem1 footerAddr).next, m_size := size, m_id := s_footerId }
  (mem2,
   { m_freeBlocks := btm.m_freeBlocks + 1, m_freeBytes := btm.m_freeBytes + size },
   p)

/-- BoundaryTagManager::RemoveTags(freedBlock): after validating both tags
(a debug_assert with no state effect), decrement the counters by one block
and by the block size read from the header, then run the FreedBlock
destructor on the header and on the footer, located before the header is
destroyed. -/
def BoundaryTagManager.RemoveTags (btm : BoundaryTagManager) (mem : Memory)
    (p : ℕ) : Memory × BoundaryTagManager :=
  let size := (mem p).m_size
  let footerAddr := p + size - sizeofFreedBlock
  let mem1 := mem.write p poisonedBlock
  let mem2 := mem1.write footerAddr poisonedBlock
  (mem2,
   { m_freeBlocks := btm.m_freeBlocks - 1, m_freeBytes := btm.m_freeBytes - size })

/-- BoundaryTagManager::PrecedingBlock(p, beginningOfPool): nothing precedes
the pool start; otherwise read the candidate footer record just below p and,
if it carries the footer id and the magic, return the block starting at
p - footer.Size(). -/
def BoundaryTagManager.PrecedingBlock (mem : Memory) (p beginningOfPool : ℕ) :
    Option ℕ :=
  if p = beginningOfPool then none
  else
    let footer := mem (p - sizeofFreedBlock)
    if ¬ footer.IsFreedBlock s_footerId then none
    else some (p - footer.m_size)

/-- BoundaryTagManager::FollowingBlock(p, size, endOfPool): nothing follows
the end of the committed pool; otherwise read the candidate header record at
p + size and return it if it carries the header id and the magic. -/
def BoundaryTagManager.FollowingBlock (mem : Memory) (p size endOfPool : ℕ) :
    Option ℕ :=
  if p + size = endOfPool then none
  else if ¬ (mem (p + size)).IsFreedBlock s_headerId then none
  else some (p + size)

/-- Stats: the third, stream-derived tally. -/
structure Stats where
  m_totalAllocatedBlocks : ℕ
  m_totalAllocatedBytes : ℕ
  m_totalDeallocatedBlocks : ℕ
  m_totalDeallocatedBytes : ℕ
  m_currentExtantBlocks : ℕ
  m_currentExtantBytes : ℕ
  m_currentFreeBlocks : ℕ
  m_currentFreeBytes : ℕ
deriving DecidableEq

/-- the all-zero statistics record. -/
def Stats.zeroed : Stats :=
  { m_totalAllocatedBlocks := 0, m_totalAllocatedBytes := 0,
    m_totalDeallocatedBlocks := 0, m_totalDeallocatedBytes := 0,
    m_currentExtantBlocks := 0, m_currentExtantBytes := 0,
    m_currentFreeBlocks := 0, m_currentFreeBytes := 0 }

/-- Stats::OnReset: clear every counter. -/
def Stats.OnReset (_ : Stats) : Stats := Stats.zeroed

/-- Stats::OnAllocate. -/
def Stats.OnAllocate (s : Stats) (size : ℕ) : Stats :=
  { s with
    m_totalAllocatedBlocks := s.m_totalAllocatedBlocks + 1,
    m_totalAllocatedBytes := s.m_totalAllocatedBytes + size,
    m_currentExtantBlocks := s.m_currentExtantBlocks + 1,
    m_currentExtantBytes := s.m_currentExtantBytes + size }

/-- Stats::OnDeallocate. -/
def Stats.OnDeallocate (s : Stats) (size : ℕ) : Stats :=
  { s with
    m_totalDeallocatedBlocks := s.m_totalDeallocatedBlocks + 1,
    m_totalDeallocatedBytes := s.m_totalDeallocatedBytes + size,
    m_currentExtantBlocks := s.m_currentExtantBlocks - 1,
    m_currentExtantBytes := s.m_currentExtantBytes - size }

/-- Stats::OnAddToFreelist. -/
def Stats.OnAddToFreelist (s : Stats) (size : ℕ) : Stats :=
  { s with
    m_currentFreeBlocks := s.m_currentFreeBlocks + 1,
    m_currentFreeBytes := s.m_currentFreeBytes + size }

/-- Stats::OnRemoveFromFreelist. -/
def Stats.OnRemoveFromFreelist (s : Stats) (size : ℕ) : Stats :=
  { s with
    m_currentFreeBlocks := s.m_currentFreeBlocks - 1,
    m_currentFreeBytes := s.m_currentFreeBytes - size }

/-- Stats::FreeBlocks. -/
def Stats.FreeBlocks (s : Stats) : ℕ := s.m_currentFreeBlocks

/-- Stats::FreeBytes. -/
def Stats.FreeBytes (s : Stats) : ℕ := s.m_currentFreeBytes

/-- Modelled from the spec: the external pool collaborator (lib pool.h is not
part of src/).  A contiguous region of da_capacity bytes with bump pointer
da_pos; the inspectable fields base and pos of the spec are poolBase and
da_pos here. -/
structure Pool where
  da_capacity : ℕ
  da_pos : ℕ
deriving DecidableEq

/-- Modelled from the spec: pool_alloc bump-allocates from the end of the
committed region, returning null when the capacity would be exceeded. -/
def pool_alloc (pool : Pool) (size : ℕ) : Option ℕ × Pool :=
  if pool.da_pos + size ≤ pool.da_capacity then
    (some (poolBase + pool.da_pos), { pool with da_pos := pool.da_pos + size })
  else
    (none, pool)

/-- Modelled from the spec: pool_free_all resets the bump pointer to zero. -/
def pool_free_all (pool : Pool) : Pool :=
  { pool with da_pos := 0 }

/-- HeaderlessAllocator::Impl: the pool, the tag memory and the three
independent tallies. -/
structure Impl where
  m_pool : Pool
  mem : Memory
  m_segregatedRangeLists : SegregatedRangeLists
  m_boundaryTagManager : BoundaryTagManager
  m_stats : Stats

/-- Impl::AddToFreelist: write the tags, insert the header block into the
segregated lists (its size read back from the fresh header), update Stats. -/
def Impl.addToFreelist (st : Impl) (p size : ℕ) : Impl :=
  let r := st.m_boundaryTagManager.WriteTags st.mem p size
  { st with
    mem := r.1,
    m_boundaryTagManager := r.2.1,
    m_segregatedRangeLists := SegregatedRangeLists.Insert r.1 st.m_segregatedRangeLists r.2.2,
    m_stats := st.m_stats.OnAddToFreelist size }

/-- Impl::RemoveFromFreelist: Stats first, then the segregated lists, then
the tags — each reading the block size before the tags are destroyed. -/
def Impl.removeFromFreelist (st : Impl) (freedBlock : ℕ) : Impl :=
  let stats1 := st.m_stats.OnRemoveFromFreelist (st.mem freedBlock).m_size
  let srl1 := SegregatedRangeLists.Remove st.mem st.m_segregatedRangeLists freedBlock
  let r := st.m_boundaryTagManager.RemoveTags st.mem freedBlock
  { st with
    mem := r.1,
    m_boundaryTagManager := r.2,
    m_segregatedRangeLists := srl1,
    m_stats := stats1 }

/-- first block of Impl::Coalesce: probe the preceding neighbor; on a hit,
move p down by its size, grow size by it, and remove it from the free
structure.  Returns the state and the updated p and size. -/
def Impl.coalesce1 (st : Impl) (p size : ℕ) : Impl × ℕ × ℕ :=
  match BoundaryTagManager.PrecedingBlock st.mem p poolBase with
  | some precedingBlock =>
    let psize := (st.mem precedingBlock).m_size
    (st.removeFromFreelist precedingBlock, p - psize, size + psize)
  | none => (st, p, size)

/-- Impl::Coalesce: the preceding-neighbor block, then the following-neighbor
probe at the updated p + size against base + pos. -/
def Impl.coalesce (st : Impl) (p size : ℕ) : Impl × ℕ × ℕ :=
  let r1 := st.coalesce1 p size
  let st1 := r1.1
  let p1 := r1.2.1
  let size1 := r1.2.2
  match BoundaryTagManager.FollowingBlock st1.mem p1 size1
      (poolBase + st1.m_pool.da_pos) with
  | some followingBlock =>
    (st1.removeFromFreelist followingBlock, p1, size1 + (st1.mem followingBlock).m_size)
  | none => (st1, p1, size1)

/-- Impl::TakeAndSplitFreeBlock: find a fitting block, compute the leftover
before removing it, remove it entirely, and re-insert the tail when the
leftover is itself a valid size. -/
def Impl.takeAndSplitFreeBlock (st : Impl) (size : ℕ) : Option ℕ × Impl :=
  match SegregatedRangeLists.Find st.mem st.m_segregatedRangeLists size with
  | none => (none, st)
  | some freedBlock =>
    let p := freedBlock
    let leftoverSize := (st.mem freedBlock).m_size - size
    let st1 := st.removeFromFreelist freedBlock
    if IsValidSize leftoverSize then (some p, st1.addToFreelist (p + size) leftoverSize)
    else (some p, st1)

/-- Impl::Allocate: try the free structure, fall back to the pool, return
null on total failure without updating statistics. -/
def Impl.Allocate (st : Impl) (size : ℕ) : Option ℕ × Impl :=
  match st.takeAndSplitFreeBlock size with
  | (some p, st1) => (some p, { st1 with m_stats := st1.m_stats.OnAllocate size })
  | (none, _) =>
    match pool_alloc st.m_pool size with
    | (some p, pool1) =>
      (some p, { st with m_pool := pool1, m_stats := st.m_stats.OnAllocate size })
    | (none, _) => (none, st)

/-- Impl::Deallocate: record the deallocation, coalesce with free neighbors,
insert the combined block into the free structure. -/
def Impl.Deallocate (st : Impl) (p size : ℕ) : Impl :=
  let st1 := { st with m_stats := st.m_stats.OnDeallocate size }
  let r := st1.coalesce p size
  r.1.addToFreelist r.2.1 r.2.2

/-- Impl::Reset: release the pool, reset the segregated lists and the
statistics.  The BoundaryTagManager member has no reset and is untouched. -/
def Impl.Reset (st : Impl) : Impl :=
  { st with
    m_pool := pool_free_all st.m_pool,
    m_segregatedRangeLists := SegregatedRangeLists.Reset,
    m_stats := st.m_stats.OnReset }

/-- a freshly constructed allocator over a pool of the given capacity:
pool_create then Reset; tag memory has never been written. -/
def Impl.create (poolSize : ℕ) : Impl :=
  Impl.Reset
    { m_pool := { da_capacity := poolSize, da_pos := 0 },
      mem := blankMemory,
      m_segregatedRangeLists := SegregatedRangeLists.Reset,
      m_boundaryTagManager := BoundaryTagManager.init,
      m_stats := Stats.zeroed }

/-- the number of free neighbors the two boundary-tag probes of Coalesce
detect for an incoming block, recomputed exactly as Coalesce runs them: the
following-neighbor probe happens after the preceding neighbor (if any) has
been folded in and removed. -/
def Impl.detectedFreeNeighbors (st : Impl) (p size : ℕ) : ℕ :=
  match BoundaryTagManager.PrecedingBlock st.mem p poolBase with
  | some precedingBlock =>
    let psize := (st.mem precedingBlock).m_size
    let st1 := st.removeFromFreelist precedingBlock
    1 + (match BoundaryTagManager.FollowingBlock st1.mem (p - psize) (size + psize)
             (poolBase + st1.m_pool.da_pos) with
         | some _ => 1
         | none => 0)
  | none =>
    match BoundaryTagManager.FollowingBlock st.mem p size
        (poolBase + st.m_pool.da_pos) with
    | some _ => 1
    | none => 0

/-- a header record as WriteTags lays it down over never-written memory. -/
def hdrRec (size : ℕ) : FreedBlock :=
  { m_magic := s_magic, prev := 0, next := 0, m_size := size, m_id := s_headerId }

/-- a footer record as WriteTags lays it down over never-written memory. -/
def ftrRec (size : ℕ) : FreedBlock :=
  { m_magic := s_magic, prev := 0, next := 0, m_size := size, m_id := s_footerId }

/-- concrete memory holding one tagged 64-byte free block at address 0
(header at 0, footer at 64 - 20 = 44), used by the witnesses below. -/
def memOneBlock : Memory :=
  (blankMemory.write 0 (hdrRec 64)).write 44 (ftrRec 64)

/-- segregated lists tracking exactly that block: size class of 64 is 6. -/
def srlOneBlock : SegregatedRangeLists :=
  { rangeLists := Function.update (fun _ => RangeList.Reset) 6
      { blocks := [0], m_freeBlocks := 1, m_freeBytes := 64 },
    m_bitmap := 64 }

/-- an allocator state tracking that one free block, with 64 further bytes
of the pool handed out (pos = 128), all three tallies agreeing. -/
def stOneBlock : Impl :=
  { m_pool := { da_capacity := 512, da_pos := 128 },
    mem := memOneBlock,
    m_segregatedRangeLists := srlOneBlock,
    m_boundaryTagManager := { m_freeBlocks := 1, m_freeBytes := 64 },
    m_stats := { Stats.zeroed with
      m_currentFreeBlocks := 1, m_currentFreeBytes := 64,
      m_currentExtantBlocks := 1, m_currentExtantBytes := 64,
      m_totalAllocatedBlocks := 2, m_totalAllocatedBytes := 128,
      m_totalDeallocatedBlocks := 1, m_totalDeallocatedBytes := 64 } }

/-- concrete memory holding one tagged 96-byte free block at address 0
(header at 0, footer at 96 - 20 = 76).  96 = 48 + 48 splits into two halves
that are both at least 2 * sizeof(FreedBlock) = 40 bytes, so every tag pair
written while exercising the split-then-coalesce round trip on this block
occupies disjoint byte ranges. -/
def memBlock96 : Memory :=
  (blankMemory.write 0 (hdrRec 96)).write 76 (ftrRec 96)

/-- segregated lists tracking exactly that block: size class of 96 is 7. -/
def srlBlock96 : SegregatedRangeLists :=
  { rangeLists := Function.update (fun _ => RangeList.Reset) 7
      { blocks := [0], m_freeBlocks := 1, m_freeBytes := 96 },
    m_bitmap := 128 }

/-- an allocator state tracking that one 96-byte free block, with 32 further
bytes of the pool handed out (pos = 128), all three tallies agreeing. -/
def stBlock96 : Impl :=
  { m_pool := { da_capacity := 512, da_pos := 128 },
    mem := memBlock96,
    m_segregatedRangeLists := srlBlock96,
    m_boundaryTagManager := { m_freeBlocks := 1, m_freeBytes := 96 },
    m_stats := { Stats.zeroed with
      m_currentFreeBlocks := 1, m_currentFreeBytes := 96,
      m_currentExtantBlocks := 1, m_currentExtantBytes := 32,
      m_totalAllocatedBlocks := 2, m_totalAllocatedBytes := 128,
      m_totalDeallocatedBlocks := 1, m_totalDeallocatedBytes := 96 } }

/-! ### helper lemmas -/

theorem Memory.write_apply (m : Memory) (p : ℕ) (r : FreedBlock) (a : ℕ) :
    Memory.write m p r a = if a = p then r else m a := rfl

theorem isValidSize_iff {size : ℕ} :
    IsValidSize size = true ↔ sizeofFreedBlock ≤ size ∧ size % minAlignment = 0 := by
  unfold IsValidSize sizeofFreedBlock minAlignment
  split_ifs with h1 h2 <;> simp_all

theorem isValidSize_ge32 {size : ℕ} (h : IsValidSize size = true) : 32 ≤ size := by
  rcases isValidSize_iff.mp h with ⟨h1, h2⟩
  unfold sizeofFreedBlock at h1
  unfold minAlignment at h2
  omega

theorem clogAux_eq_clog : ∀ fuel x, x ≤ fuel → clogAux fuel x = Nat.clog 2 x := by
  intro fuel
  induction fuel with
  | zero =>
    intro x hx
    have hx0 : x = 0 := Nat.le_zero.mp hx
    subst hx0
    simp [clogAux]
  | succ n ih =>
    intro x hx
    by_cases h1 : x ≤ 1
    · have hx01 : x = 0 ∨ x = 1 := by omega
      rcases hx01 with h | h <;> subst h <;>
        simp [clogAux, Nat.clog_one_right]
    · have h2 : 2 ≤ x := by omega
      have hd : (x + 1) / 2 ≤ n := by omega
      show (if x ≤ 1 then 0 else clogAux n ((x + 1) / 2) + 1) = Nat.clog 2 x
      rw [if_neg h1, ih _ hd, Nat.clog_of_two_le (by norm_num) h2]
      norm_num

theorem ceil_log2_eq_clog (x : ℕ) : ceil_log2 x = Nat.clog 2 x :=
  clogAux_eq_clog x x le_rfl

theorem sizeClassOf_eq_clog (x : ℕ) : sizeClassOf x = Nat.clog 2 x :=
  ceil_log2_eq_clog x

theorem sizeClassOf_mono {m n : ℕ} (h : m ≤ n) : sizeClassOf m ≤ sizeClassOf n := by
  rw [sizeClassOf_eq_clog, sizeClassOf_eq_clog]
  exact Nat.clog_mono_right 2 h

theorem sizeClassOf_two_pow (t : ℕ) : sizeClassOf (2 ^ t) = t := by
  rw [sizeClassOf_eq_clog]
  exact Nat.clog_pow 2 t (by norm_num)

theorem sizeClassOf_le_of_le_two_pow {n c : ℕ} (h : n ≤ 2 ^ c) : sizeClassOf n ≤ c := by
  rw [sizeClassOf_eq_clog]
  by_contra hc
  have h2 : 2 ^ c < n := (Nat.pow_lt_iff_lt_clog (by norm_num)).mpr (by omega)
  omega

/-! ### C2 -/

/-- C2: the claim states that IsValidSize accepts exactly the multiples of 16
that are at least 2 times sizeof(FreedBlock), rejecting everything in the
interval from sizeof(FreedBlock) up to (excluding) twice that.  The code only
rejects sizes below one sizeof(FreedBlock): the 16-byte multiple 32 is
accepted although 32 < 2 * 20 = 40, and on a 32-byte block the footer record,
written at offset 32 - 20 = 12, starts inside the 20-byte header record, so
the two tags the allocator writes on such a freed block overlap and corrupt
each other, tripping the Validate checks WriteTags itself runs. -/
theorem claim_C2_isValidSize_accepts_sub_double_record :
    IsValidSize 32 = true ∧ 32 < 2 * sizeofFreedBlock ∧
    sizeofFreedBlock ≤ 32 ∧ 32 % minAlignment = 0 ∧
    32 - sizeofFreedBlock < sizeofFreedBlock := by decide

/-! ### C1 -/

/-- C1: counterexample run for the claim that after every Reset all three
tallies are zero.  Allocate(64) returns pointer 0; Deallocate(0, 64) tracks
one 64-byte free block in all three tallies; Reset() zeroes Stats and the
SegregatedRangeLists but leaves the BoundaryTagManager counters — Reset
never touches that member and BoundaryTagManager has no reset of its own —
still reporting 1 block and 64 bytes, so the cross-check AssertEqual(0,0,1)
inside the Validate that Reset itself performs fails. -/
theorem claim_C1_reset_leaves_boundary_tag_tally :
    (((Impl.create 512).Allocate 64).1 = some 0) ∧
    ((((Impl.create 512).Allocate 64).2.Deallocate 0 64).Reset).m_boundaryTagManager.FreeBlocks = 1 ∧
    ((((Impl.create 512).Allocate 64).2.Deallocate 0 64).Reset).m_boundaryTagManager.FreeBytes = 64 ∧
    ((((Impl.create 512).Allocate 64).2.Deallocate 0 64).Reset).m_stats.FreeBlocks = 0 ∧
    ((((Impl.create 512).Allocate 64).2.Deallocate 0 64).Reset).m_stats.FreeBytes = 0 ∧
    ((((Impl.create 512).Allocate 64).2.Deallocate 0 64).Reset).m_segregatedRangeLists.FreeBlocks = 0 ∧
    ((((Impl.create 512).Allocate 64).2.Deallocate 0 64).Reset).m_segregatedRangeLists.FreeBytes = 0 := by
  decide

/-! ### C4 -/

/-- C4: when the segregated lists have no fitting block and the pool cannot
serve the request either, Allocate returns null and the state — every
statistic included — is exactly the state before the call; the model is a
total function, so no exception is possible. -/
theorem claim_C4_allocate_total_failure_unchanged (st : Impl) (size : ℕ)
    (hfind : SegregatedRangeLists.Find st.mem st.m_segregatedRangeLists size = none)
    (hpool : st.m_pool.da_capacity < st.m_pool.da_pos + size) :
    st.Allocate size = (none, st) := by
  unfold Impl.Allocate Impl.takeAndSplitFreeBlock
  rw [hfind]
  unfold pool_alloc
  rw [if_neg (by omega)]

/-- witness for C4 at a concrete state: a fresh 16-byte pool cannot serve a
32-byte request from the (empty) free structure nor from the pool. -/
theorem claim_C4_witness :
    (Impl.create 16).Allocate 32 = (none, Impl.create 16) :=
  claim_C4_allocate_total_failure_unchanged (Impl.create 16) 32 (by decide) (by decide)

/-! ### C5 -/

/-- C5: the end-of-pool test of the following-neighbor probe is performed
against the original p + size.  Coalesce mutates p and size in place when a
preceding free block is merged — p drops by that block's size and size grows
by the same amount, the removal reading that size from the preceding block's
header — so the sum p + size handed to FollowingBlock (both for the
comparison against base + pos and as the address inspected) is exactly the
incoming p + size.  The hypothesis is that a detected preceding block is no
larger than the distance from the pool base to p, which holds for any block
actually inside the pool. -/
theorem claim_C5_following_probe_uses_original_sum (st : Impl) (p size : ℕ)
    (h : ∀ q, BoundaryTagManager.PrecedingBlock st.mem p poolBase = some q →
      (st.mem q).m_size ≤ p) :
    (st.coalesce1 p size).2.1 + (st.coalesce1 p size).2.2 = p + size := by
  unfold Impl.coalesce1
  cases hpre : BoundaryTagManager.PrecedingBlock st.mem p poolBase with
  | none => rfl
  | some q =>
    have hle := h q hpre
    simp only []
    omega

/-- witness for C5: in stOneBlock, freeing at p = 64 does find the preceding
64-byte block at 0, and the sum fed to the following probe is still 64 + 32. -/
theorem claim_C5_witness :
    (stOneBlock.coalesce1 64 32).2.1 + (stOneBlock.coalesce1 64 32).2.2 = 64 + 32 :=
  claim_C5_following_probe_uses_original_sum stOneBlock 64 32 (by
    intro q hq
    rw [show BoundaryTagManager.PrecedingBlock stOneBlock.mem 64 poolBase = some 0 from by decide] at hq
    cases hq
    decide)

/-! ### C9 -/

/-- C9: RemoveTags validates both tags (a debug_assert, with no state
effect), decrements the tag manager's counters by one block and by the block
size, and destroys both the header record and the footer record, each field
overwritten with its poison value: prev = 0, next = 0, m_id = 0, m_magic = 0
and m_size = all ones of the 32-bit size_t (the value assigned by
m_size = not 0u). -/
theorem claim_C9_removeTags_decrements_and_poisons (btm : BoundaryTagManager)
    (mem : Memory) (p : ℕ)
    (hblocks : 1 ≤ btm.m_freeBlocks)
    (hbytes : (mem p).m_size ≤ btm.m_freeBytes) :
    (btm.RemoveTags mem p).1 p = poisonedBlock ∧
    (btm.RemoveTags mem p).1 (p + (mem p).m_size - sizeofFreedBlock) = poisonedBlock ∧
    (btm.RemoveTags mem p).2.m_freeBlocks + 1 = btm.m_freeBlocks ∧
    (btm.RemoveTags mem p).2.m_freeBytes + (mem p).m_size = btm.m_freeBytes ∧
    poisonedBlock.prev = 0 ∧ poisonedBlock.next = 0 ∧ poisonedBlock.m_id = 0 ∧
    poisonedBlock.m_magic = 0 ∧ poisonedBlock.m_size = 2 ^ 32 - 1 := by
  unfold BoundaryTagManager.RemoveTags
  refine ⟨?_, ?_, ?_, ?_, rfl, rfl, rfl, rfl, rfl⟩
  · simp [Memory.write]
  · simp [Memory.write]
  · simp only []
    omega
  · simp only []
    omega

/-- witness for C9 on the concrete block of stOneBlock. -/
theorem claim_C9_witness :
    (BoundaryTagManager.RemoveTags ⟨1, 64⟩ memOneBlock 0).1 0 = poisonedBlock ∧
    (BoundaryTagManager.RemoveTags ⟨1, 64⟩ memOneBlock 0).1
      (0 + (memOneBlock 0).m_size - sizeofFreedBlock) = poisonedBlock ∧
    (BoundaryTagManager.RemoveTags ⟨1, 64⟩ memOneBlock 0).2.m_freeBlocks + 1 = 1 ∧
    (BoundaryTagManager.RemoveTags ⟨1, 64⟩ memOneBlock 0).2.m_freeBytes +
      (memOneBlock 0).m_size = 64 ∧
    poisonedBlock.prev = 0 ∧ poisonedBlock.next = 0 ∧ poisonedBlock.m_id = 0 ∧
    poisonedBlock.m_magic = 0 ∧ poisonedBlock.m_size = 2 ^ 32 - 1 :=
  claim_C9_removeTags_decrements_and_poisons ⟨1, 64⟩ memOneBlock 0
    (by decide) (by decide)

/-! ### C8 -/

theorem mem_insertAddressOrdered {b : ℕ} : ∀ {l : List ℕ} {x : ℕ},
    x ∈ insertAddressOrdered b l → x = b ∨ x ∈ l := by
  intro l
  induction l with
  | nil =>
    intro x h
    simp [insertAddressOrdered] at h
    exact Or.inl h
  | cons s rest ih =>
    intro x h
    simp only [insertAddressOrdered, AddressOrder.ShouldInsertBefore,
      decide_eq_true_eq] at h
    split_ifs at h with hc
    · rcases List.mem_cons.mp h with h | h
      · exact Or.inl h
      · exact Or.inr h
    · rcases List.mem_cons.mp h with h | h
      · exact Or.inr (List.mem_cons.mpr (Or.inl h))
      · rcases ih h with h | h
        · exact Or.inl h
        · exact Or.inr (List.mem_cons.mpr (Or.inr h))

theorem insertAddressOrdered_split (b : ℕ) : ∀ l : List ℕ,
    ∃ l₁ l₂, l = l₁ ++ l₂ ∧ (∀ x ∈ l₁, ¬ b < x) ∧
      (∀ hd, l₂.head? = some hd → b < hd) ∧
      insertAddressOrdered b l = l₁ ++ b :: l₂ := by
  intro l
  induction l with
  | nil => exact ⟨[], [], rfl, by simp, by simp, rfl⟩
  | cons s rest ih =>
    by_cases hc : b < s
    · refine ⟨[], s :: rest, rfl, by simp, ?_, ?_⟩
      · intro hd hhd
        simp only [List.head?_cons, Option.some.injEq] at hhd
        omega
      · simp [insertAddressOrdered, AddressOrder.ShouldInsertBefore, hc]
    · obtain ⟨l₁, l₂, he, h1, h2, h3⟩ := ih
      refine ⟨s :: l₁, l₂, by rw [List.cons_append, ← he], ?_, h2, ?_⟩
      · intro x hx
        rcases List.mem_cons.mp hx with h | h
        · subst h; exact hc
        · exact h1 x h
      · simp [insertAddressOrdered, AddressOrder.ShouldInsertBefore, hc, h3]

theorem sorted_insertAddressOrdered {b : ℕ} : ∀ {l : List ℕ},
    l.Sorted (· < ·) → b ∉ l → (insertAddressOrdered b l).Sorted (· < ·) := by
  intro l
  induction l with
  | nil =>
    intro _ _
    simp [insertAddressOrdered]
  | cons s rest ih =>
    intro hs hb
    rw [List.sorted_cons] at hs
    obtain ⟨hall, hrest⟩ := hs
    simp only [insertAddressOrdered, AddressOrder.ShouldInsertBefore,
      decide_eq_true_eq]
    split_ifs with hc
    · rw [List.sorted_cons]
      refine ⟨?_, List.sorted_cons.mpr ⟨hall, hrest⟩⟩
      intro x hx
      rcases List.mem_cons.mp hx with h | h
      · omega
      · have := hall x h; omega
    · have hne : b ≠ s := fun h => hb (h ▸ List.mem_cons_self s rest)
      have hsb : s < b := by omega
      rw [List.sorted_cons]
      refine ⟨?_, ih hrest (fun h => hb (List.mem_cons.mpr (Or.inr h)))⟩
      intro x hx
      rcases mem_insertAddressOrdered hx with h | h
      · omega
      · exact hall x h

/-- C8: RangeList::Insert with the AddressOrder policy places the new block
immediately before the first successor whose address is greater: the list
splits as a front segment of blocks not above the new address (scanned past
by the loop) followed by the tail whose head, if any, is the first
strictly-greater successor, and the new block lands between them.
Consequently strict ascending-address sortedness of the block sequence from
sentinel.next to the sentinel is preserved by Insert (for a block not
already listed — addresses of distinct tracked blocks are distinct) and by
Remove. -/
theorem claim_C8_insert_keeps_address_order (mem : Memory) (rl : RangeList) (b : ℕ)
    (hs : rl.blocks.Sorted (· < ·)) (hb : b ∉ rl.blocks) :
    (∃ l₁ l₂, rl.blocks = l₁ ++ l₂ ∧ (∀ x ∈ l₁, ¬ b < x) ∧
      (∀ hd, l₂.head? = some hd → b < hd) ∧
      (rl.Insert mem b).blocks = l₁ ++ b :: l₂) ∧
    ((rl.Insert mem b).blocks.Sorted (· < ·)) ∧
    ((rl.Remove mem b).blocks.Sorted (· < ·)) := by
  refine ⟨?_, ?_, ?_⟩
  · exact insertAddressOrdered_split b rl.blocks
  · exact sorted_insertAddressOrdered hs hb
  · exact List.Pairwise.sublist (List.erase_sublist b rl.blocks) hs

/-- witness for C8: inserting block 32 into the sorted list of blocks 16 and
48, and removing it again. -/
theorem claim_C8_witness :
    (∃ l₁ l₂, (RangeList.mk [16, 48] 2 96).blocks = l₁ ++ l₂ ∧
      (∀ x ∈ l₁, ¬ 32 < x) ∧ (∀ hd, l₂.head? = some hd → 32 < hd) ∧
      ((RangeList.mk [16, 48] 2 96).Insert blankMemory 32).blocks = l₁ ++ 32 :: l₂) ∧
    (((RangeList.mk [16, 48] 2 96).Insert blankMemory 32).blocks.Sorted (· < ·)) ∧
    (((RangeList.mk [16, 48] 2 96).Remove blankMemory 32).blocks.Sorted (· < ·)) :=
  claim_C8_insert_keeps_address_order blankMemory (RangeList.mk [16, 48] 2 96) 32
    (by decide) (by decide)

/-! ### C7 -/

theorem findFirstFit_eq_find_first (mem : Memory) (minSize : ℕ) : ∀ l : List ℕ,
    findFirstFit mem minSize l = l.find? fun a => decide (minSize ≤ (mem a).m_size) := by
  intro l
  induction l with
  | nil => rfl
  | cons a rest ih =>
    simp only [findFirstFit, List.find?_cons, ge_iff_le]
    by_cases hc : minSize ≤ (mem a).m_size
    · rw [if_pos hc]
      simp [hc]
    · rw [if_neg hc]
      simp [hc, ih]

theorem findFirstFit_none_all_small {mem : Memory} {minSize : ℕ} : ∀ {l : List ℕ},
    findFirstFit mem minSize l = none → ∀ a ∈ l, (mem a).m_size < minSize := by
  intro l
  induction l with
  | nil => intro _ a ha; cases ha
  | cons b rest ih =>
    intro h a ha
    simp only [findFirstFit] at h
    by_cases hc : (mem b).m_size ≥ minSize
    · rw [if_pos hc] at h
      exact absurd h (by simp)
    · rw [if_neg hc] at h
      rcases List.mem_cons.mp ha with h1 | h1
      · subst h1; omega
      · exact ih h a h1

theorem sum_sizes_lt_of_all_small {mem : Memory} {minSize : ℕ} : ∀ l : List ℕ,
    l ≠ [] → (∀ a ∈ l, (mem a).m_size < minSize) →
    (l.map fun a => (mem a).m_size).sum < minSize * l.length := by
  intro l
  induction l with
  | nil => intro h; exact absurd rfl h
  | cons b rest ih =>
    intro _ hall
    simp only [List.map_cons, List.sum_cons, List.length_cons]
    have hb : (mem b).m_size < minSize := hall b (List.mem_cons_self b rest)
    cases rest with
    | nil => simpa using hb
    | cons c r2 =>
      have hrec := ih (by simp) (fun a ha => hall a (List.mem_cons.mpr (Or.inr ha)))
      rw [Nat.mul_succ]
      have h3 := Nat.add_lt_add hrec hb
      simpa [Nat.add_comm] using h3

/-- C7: three facts about RangeList::Find.  First, it returns the first
block in forward order whose size is at least minSize (the find-first
characterisation).  Second, whenever it is invoked on a non-empty list with
coherent counters and finds nothing, every listed block is smaller than
minSize, so the integer quotient freeBytes / freeBlocks is strictly below
minSize — the miss assertion holds.  Third, every class consulted by
SegregatedRangeLists::Find is a set bit of bitmap & (~0u << minSizeClass),
hence a set bit of the bitmap, and under the bitmap invariant such a class
has a non-zero block counter, so the divisor of the miss assertion is never
zero on those calls. -/
theorem claim_C7_find_first_fit_and_miss_assert :
    (∀ (mem : Memory) (rl : RangeList) (minSize : ℕ),
      RangeList.Find mem rl minSize =
        rl.blocks.find? fun a => decide (minSize ≤ (mem a).m_size)) ∧
    (∀ (mem : Memory) (rl : RangeList) (minSize : ℕ),
      rl.blocks ≠ [] → rl.Coherent mem → RangeList.Find mem rl minSize = none →
      rl.m_freeBytes / rl.m_freeBlocks < minSize) ∧
    (∀ (srl : SegregatedRangeLists) (minSize t : ℕ),
      (∀ i, srl.m_bitmap.testBit i = true → (srl.rangeLists i).m_freeBlocks ≠ 0) →
      (srl.m_bitmap &&& (((2 ^ 32 - 1) <<< sizeClassOf minSize) % 2 ^ 32)).testBit t = true →
      (srl.rangeLists t).m_freeBlocks ≠ 0) := by
  refine ⟨?_, ?_, ?_⟩
  · intro mem rl minSize
    exact findFirstFit_eq_find_first mem minSize rl.blocks
  · intro mem rl minSize hne hcoh hmiss
    obtain ⟨hcnt, hbytes⟩ := hcoh
    have hall := findFirstFit_none_all_small hmiss
    have hsum := sum_sizes_lt_of_all_small rl.blocks hne hall
    have hpos : 0 < rl.m_freeBlocks := by
      rw [hcnt]
      cases hl : rl.blocks with
      | nil => exact absurd hl hne
      | cons a r => simp [hl]
    rw [Nat.div_lt_iff_lt_mul hpos, hbytes, hcnt]
    exact hsum
  · intro srl minSize t hwf hbit
    rw [Nat.testBit_land] at hbit
    exact hwf t (Bool.and_elim_left hbit)

/-- witness for C7: the single-block class-6 list of stOneBlock misses a
128-byte request (64/1 = 64 < 128), and class 6 — consulted for a 32-byte
request because bit 6 of the masked bitmap is set — has a non-zero counter. -/
theorem claim_C7_witness :
    (RangeList.Find memOneBlock (RangeList.mk [0] 1 64) 128 =
      (RangeList.mk [0] 1 64).blocks.find?
        fun a => decide (128 ≤ (memOneBlock a).m_size)) ∧
    (RangeList.mk [0] 1 64).m_freeBytes / (RangeList.mk [0] 1 64).m_freeBlocks < 128 ∧
    (srlOneBlock.rangeLists 6).m_freeBlocks ≠ 0 := by
  refine ⟨claim_C7_find_first_fit_and_miss_assert.1 memOneBlock (RangeList.mk [0] 1 64) 128,
    claim_C7_find_first_fit_and_miss_assert.2.1 memOneBlock (RangeList.mk [0] 1 64) 128
      (by decide) (by constructor <;> decide) (by decide),
    claim_C7_find_first_fit_and_miss_assert.2.2 srlOneBlock 32 6 ?_ (by decide)⟩
  intro i hi
  have h64 : (64 : ℕ) = 2 ^ 6 := by norm_num
  rw [show srlOneBlock.m_bitmap = 2 ^ 6 from by decide, Nat.testBit_two_pow] at hi
  have h6 : 6 = i := by simpa using hi
  subst h6
  decide

/-! ### bit arithmetic for the segregated-list bitmap -/

theorem BIT_eq (n : ℕ) : BIT n = 2 ^ n := by
  unfold BIT
  exact Nat.one_shiftLeft n

theorem le_of_sizeClass_lt {n s : ℕ} (h : sizeClassOf n < sizeClassOf s) : n ≤ s := by
  by_contra hc
  have := sizeClassOf_mono (show s ≤ n by omega)
  omega

theorem two_mul_land (a b : ℕ) : (2 * a) &&& (2 * b) = 2 * (a &&& b) := by
  apply Nat.eq_of_testBit_eq
  intro i
  cases i with
  | zero =>
    simp only [Nat.testBit_land, Nat.testBit_zero]
    have h1 : 2 * a % 2 = 0 := by omega
    have h2 : 2 * b % 2 = 0 := by omega
    have h3 : 2 * (a &&& b) % 2 = 0 := by omega
    simp [h1, h2, h3]
  | succ j =>
    rw [Nat.testBit_land, Nat.testBit_add_one, Nat.testBit_add_one,
      Nat.testBit_add_one]
    have h1 : 2 * a / 2 = a := by omega
    have h2 : 2 * b / 2 = b := by omega
    have h3 : 2 * (a &&& b) / 2 = a &&& b := by omega
    rw [h1, h2, h3, Nat.testBit_land]

theorem odd_land_two_pow_sub {x w : ℕ} (hodd : x % 2 = 1) (hlt : x < 2 ^ w) :
    x &&& (2 ^ w - x) = 1 := by
  have hw : 1 ≤ w := by
    by_contra h
    have hw0 : w = 0 := by omega
    subst hw0
    simp at hlt
    omega
  have h2w : 2 ^ w % 2 = 0 := by
    have hsplit : (2:ℕ) ^ w = 2 * 2 ^ (w - 1) := by
      conv_lhs => rw [show w = (w - 1) + 1 from by omega]
      ring
    omega
  apply Nat.eq_of_testBit_eq
  intro i
  cases i with
  | zero =>
    simp only [Nat.testBit_land, Nat.testBit_zero]
    have hsub : (2 ^ w - x) % 2 = 1 := by omega
    simp [hodd, hsub]
  | succ j =>
    have hx1lt : x - 1 < 2 ^ w := by omega
    rw [Nat.testBit_land,
      show (2:ℕ) ^ w - x = 2 ^ w - ((x - 1) + 1) from by omega,
      Nat.testBit_two_pow_sub_succ hx1lt]
    have hxbit : x.testBit (j + 1) = (x - 1).testBit (j + 1) := by
      rw [Nat.testBit_add_one, Nat.testBit_add_one]
      congr 1
      omega
    have h1bit : Nat.testBit 1 (j + 1) = false := by
      rw [Nat.testBit_add_one]
      simp
    rw [hxbit, h1bit]
    cases hb : (x - 1).testBit (j + 1) <;> · simp [hb]

theorem land_neg_eq_two_pow : ∀ x, 0 < x → ∀ w, x < 2 ^ w →
    ∃ t, x.testBit t = true ∧ x &&& (2 ^ w - x) = 2 ^ t := by
  intro x
  induction x using Nat.strong_induction_on with
  | _ x ih =>
    intro hx w hw
    by_cases hodd : x % 2 = 1
    · refine ⟨0, ?_, ?_⟩
      · simp [Nat.testBit_zero, hodd]
      · simpa using odd_land_two_pow_sub hodd hw
    · obtain ⟨y, rfl⟩ : ∃ y, x = 2 * y := ⟨x / 2, by omega⟩
      have hy0 : 0 < y := by omega
      have hylt : y < 2 * y := by omega
      have hw1 : 1 ≤ w := by
        by_contra h
        have hw0 : w = 0 := by omega
        subst hw0
        simp at hw
        omega
      have hpow : (2:ℕ) ^ w = 2 * 2 ^ (w - 1) := by
        conv_lhs => rw [show w = (w - 1) + 1 from by omega]
        ring
      have hylt2 : y < 2 ^ (w - 1) := by omega
      obtain ⟨t, hbit, hval⟩ := ih y hylt hy0 (w - 1) hylt2
      refine ⟨t + 1, ?_, ?_⟩
      · rw [Nat.testBit_add_one]
        have h2 : 2 * y / 2 = y := by omega
        rw [h2]
        exact hbit
      · have hsub : 2 ^ w - 2 * y = 2 * (2 ^ (w - 1) - y) := by omega
        rw [hsub, two_mul_land, hval, pow_succ]
        ring

theorem lt_two_pow_of_high_bits_false {x n : ℕ}
    (h : ∀ j, n ≤ j → x.testBit j = false) : x < 2 ^ n := by
  have hx : x = x % 2 ^ n := by
    apply Nat.eq_of_testBit_eq
    intro i
    rw [Nat.testBit_mod_two_pow]
    by_cases hi : i < n
    · simp [hi]
    · simp [hi, h i (by omega)]
  rw [hx]
  exact Nat.mod_lt _ (by positivity)

theorem land_u32not_two_pow {mask t : ℕ} (hm : mask < 2 ^ 32) (ht : t < 32) :
    ∀ i, (mask &&& u32not (2 ^ t)).testBit i = (mask.testBit i && decide (i ≠ t)) := by
  intro i
  rw [Nat.testBit_land]
  unfold u32not
  have htlt : (2:ℕ) ^ t < 2 ^ 32 := Nat.pow_lt_pow_right (by norm_num) ht
  rw [show (2:ℕ) ^ 32 - 1 - 2 ^ t = 2 ^ 32 - (2 ^ t + 1) from by omega,
    Nat.testBit_two_pow_sub_succ htlt, Nat.testBit_two_pow]
  by_cases hi : i < 32
  · by_cases hit : t = i
    · subst hit
      simp
    · simp [hi, hit]
      intro
      omega
  · have hbit : mask.testBit i = false :=
      Nat.testBit_lt_two_pow
        (lt_of_lt_of_le hm (Nat.pow_le_pow_right (by norm_num) (by omega)))
    simp [hbit]

theorem land_u32not_lt {mask t : ℕ} (hm : mask < 2 ^ 32) (ht : t < 32)
    (hbit : mask.testBit t = true) : mask &&& u32not (2 ^ t) < mask := by
  apply Nat.lt_of_testBit t
  · rw [land_u32not_two_pow hm ht]
    simp
  · exact hbit
  · intro j hj
    rw [land_u32not_two_pow hm ht]
    have hne : j ≠ t := by omega
    simp [hne]

theorem findLoopAux_none {mem : Memory} {srl : SegregatedRangeLists} {minSize : ℕ} :
    ∀ fuel mask, mask ≤ fuel → mask < 2 ^ 32 →
    findLoopAux mem srl minSize fuel mask = none →
    ∀ t, mask.testBit t = true →
      RangeList.Find mem (srl.rangeLists t) minSize = none := by
  intro fuel
  induction fuel with
  | zero =>
    intro mask hle _ _ t hbit
    have hm0 : mask = 0 := by omega
    subst hm0
    simp at hbit
  | succ n ih =>
    intro mask hle hlt h t hbit
    have hmask0 : mask ≠ 0 := by
      intro h0
      subst h0
      simp at hbit
    simp only [findLoopAux, if_neg hmask0, ValueOfLeastSignificantOneBit] at h
    obtain ⟨t0, hb0, hv0⟩ := land_neg_eq_two_pow mask (by omega) 32 hlt
    have ht0 : t0 < 32 := by
      by_contra hc
      have h1 : mask < 2 ^ t0 :=
        lt_of_lt_of_le hlt (Nat.pow_le_pow_right (by norm_num) (by omega))
      rw [Nat.testBit_lt_two_pow h1] at hb0
      simp at hb0
    rw [hv0, sizeClassOf_two_pow] at h
    cases hfind : RangeList.Find mem (srl.rangeLists t0) minSize with
    | some fb =>
      rw [hfind] at h
      simp at h
    | none =>
      rw [hfind] at h
      by_cases hteq : t = t0
      · subst hteq
        exact hfind
      · have hbit2 : (mask &&& u32not (2 ^ t0)).testBit t = true := by
          rw [land_u32not_two_pow hlt ht0]
          simp [hbit, hteq]
        have hless : mask &&& u32not (2 ^ t0) < mask := land_u32not_lt hlt ht0 hb0
        exact ih _ (by omega) (by omega) h t hbit2

theorem highMask_eq {c : ℕ} (hc : c < 32) :
    (((2 ^ 32 - 1) <<< c) % 2 ^ 32 : ℕ) = 2 ^ 32 - 2 ^ c := by
  rw [Nat.shiftLeft_eq]
  have hle : (2:ℕ) ^ c ≤ 2 ^ 32 := Nat.pow_le_pow_right (by norm_num) (by omega)
  have hpos : (1:ℕ) ≤ 2 ^ c := Nat.one_le_two_pow
  have h1 : ((2:ℕ) ^ 32 - 1) * 2 ^ c = (2 ^ 32 - 2 ^ c) + 2 ^ 32 * (2 ^ c - 1) := by
    zify [hle, hpos, show (1:ℕ) ≤ 2 ^ 32 from Nat.one_le_two_pow]
    ring
  rw [h1, Nat.add_mul_mod_self_left]
  exact Nat.mod_eq_of_lt (by omega)

theorem highMask_testBit {c b : ℕ} (hc : c < 32) :
    ((2:ℕ) ^ 32 - 2 ^ c).testBit b = (decide (c ≤ b) && decide (b < 32)) := by
  have hpos : (1:ℕ) ≤ 2 ^ c := Nat.one_le_two_pow
  have hclt : (2:ℕ) ^ c - 1 < 2 ^ 32 := by
    have := Nat.pow_lt_pow_right (show 1 < 2 by norm_num) hc
    omega
  rw [show (2:ℕ) ^ 32 - 2 ^ c = 2 ^ 32 - ((2 ^ c - 1) + 1) from by omega,
    Nat.testBit_two_pow_sub_succ hclt, Nat.testBit_two_pow_sub_one]
  by_cases h1 : b < 32 <;> by_cases h2 : b < c <;>
    · simp [h1, h2]
      try omega

/-! ### C6 -/

/-- C6: first, the size-class function ceil_log2 is monotone, so any size
whose class strictly exceeds another size's class is at least as large.
Second, under the segregated-list invariants — the bitmap is a u32, a set
bitmap bit means a non-empty class list, and every listed block lies in the
class of its size — a miss of SegregatedRangeLists::Find means no class
strictly above the requested class is populated: any such set bit would
survive into the scan mask, the drained loop would have consulted that class,
and monotonicity would have made its first block a fit.  Hence the assertion
m_bitmap < BIT(minSizeClass + 1) at the miss exit holds. -/
theorem claim_C6_higher_class_fits_and_bitmap_assert :
    (∀ s n : ℕ, sizeClassOf n < sizeClassOf s → n ≤ s) ∧
    (∀ (mem : Memory) (srl : SegregatedRangeLists) (minSize : ℕ),
      srl.m_bitmap < 2 ^ 32 →
      (∀ i, srl.m_bitmap.testBit i = true → (srl.rangeLists i).blocks ≠ []) →
      (∀ i a, a ∈ (srl.rangeLists i).blocks → sizeClassOf (mem a).m_size = i) →
      SegregatedRangeLists.Find mem srl minSize = none →
      srl.m_bitmap < BIT (sizeClassOf minSize + 1)) := by
  constructor
  · intro s n h
    exact le_of_sizeClass_lt h
  · intro mem srl minSize hb32 hne hclass hmiss
    rw [BIT_eq]
    by_cases hc32 : sizeClassOf minSize < 32
    case neg =>
      have h1 : (2:ℕ) ^ 32 ≤ 2 ^ (sizeClassOf minSize + 1) :=
        Nat.pow_le_pow_right (by norm_num) (by omega)
      omega
    case pos =>
      apply lt_two_pow_of_high_bits_false
      intro j hj
      by_cases hj32 : j < 32
      case neg =>
        exact Nat.testBit_lt_two_pow
          (lt_of_lt_of_le hb32 (Nat.pow_le_pow_right (by norm_num) (by omega)))
      case pos =>
        by_contra hbit
        simp only [Bool.not_eq_false] at hbit
        unfold SegregatedRangeLists.Find at hmiss
        have hmlt : srl.m_bitmap &&&
            (((2 ^ 32 - 1) <<< sizeClassOf minSize) % 2 ^ 32) < 2 ^ 32 :=
          Nat.and_lt_two_pow _ (by
            rw [highMask_eq hc32]
            have h1 : (1:ℕ) ≤ 2 ^ sizeClassOf minSize := Nat.one_le_two_pow
            omega)
        have hmaskbit : (srl.m_bitmap &&&
            (((2 ^ 32 - 1) <<< sizeClassOf minSize) % 2 ^ 32)).testBit j = true := by
          rw [Nat.testBit_land, highMask_eq hc32, highMask_testBit hc32, hbit]
          simp only [Bool.true_and, Bool.and_eq_true, decide_eq_true_eq]
          exact ⟨by omega, hj32⟩
        have hdrain := findLoopAux_none _ _ le_rfl hmlt hmiss j hmaskbit
        obtain ⟨a, ha⟩ : ∃ a, a ∈ (srl.rangeLists j).blocks := by
          cases hl : (srl.rangeLists j).blocks with
          | nil => exact absurd hl (hne j hbit)
          | cons x r => exact ⟨x, by simp [hl]⟩
        have hcls := hclass j a ha
        have hge : minSize ≤ (mem a).m_size := by
          apply le_of_sizeClass_lt
          rw [hcls]
          omega
        have hsmall := findFirstFit_none_all_small hdrain a ha
        omega

/-- witness for C6: size 32 is in class 5 and 64 in class 6, so the first
part yields 32 ≤ 64; and stOneBlock's segregated lists (one 64-byte block in
class 6, bitmap 64) miss a 128-byte request, with 64 < BIT(7+1) = 256. -/
theorem claim_C6_witness :
    (32 : ℕ) ≤ 64 ∧ srlOneBlock.m_bitmap < BIT (sizeClassOf 128 + 1) := by
  constructor
  · exact claim_C6_higher_class_fits_and_bitmap_assert.1 64 32 (by decide)
  · apply claim_C6_higher_class_fits_and_bitmap_assert.2 memOneBlock srlOneBlock 128
      (by decide) ?hne ?hcls (by decide)
    case hne =>
      intro i hi
      rw [show srlOneBlock.m_bitmap = 2 ^ 6 from by decide, Nat.testBit_two_pow] at hi
      have h6 : 6 = i := by simpa using hi
      subst h6
      decide
    case hcls =>
      intro i a ha
      by_cases h6 : i = 6
      · subst h6
        have ha0 : a = 0 := by
          have : (srlOneBlock.rangeLists 6).blocks = [0] := by decide
          rw [this] at ha
          simpa using ha
        subst ha0
        decide
      · have hupd : srlOneBlock.rangeLists i = RangeList.Reset := by
          unfold srlOneBlock
          simp only []
          exact Function.update_noteq h6 _ _
        rw [hupd] at ha
        simp [RangeList.Reset] at ha

/-! ### segregated-list tally lemmas -/

theorem update_proj (f : ℕ → RangeList) (c : ℕ) (rl : RangeList)
    (g : RangeList → ℕ) (i : ℕ) :
    g (Function.update f c rl i) = Function.update (fun j => g (f j)) c (g rl) i := by
  by_cases h : i = c
  · subst h
    simp
  · simp [Function.update_noteq h]

theorem sum_update_range {f : ℕ → ℕ} {c n v : ℕ} (hc : c < n) :
    (∑ i ∈ Finset.range n, Function.update f c v i) + f c =
      (∑ i ∈ Finset.range n, f i) + v := by
  have hmem : c ∈ Finset.range n := Finset.mem_range.mpr hc
  rw [Finset.sum_update_of_mem hmem, ← Finset.add_sum_erase _ f hmem,
    Finset.erase_eq]
  ring

theorem srl_insert_FreeBlocks (mem : Memory) (srl : SegregatedRangeLists) (b : ℕ)
    (hc : sizeClassOf (mem b).m_size < numRangeLists) :
    (SegregatedRangeLists.Insert mem srl b).FreeBlocks = srl.FreeBlocks + 1 := by
  unfold SegregatedRangeLists.Insert SegregatedRangeLists.FreeBlocks
  simp only []
  rw [Finset.sum_congr rfl
    (fun i _ => update_proj srl.rangeLists _ _ (fun rl => rl.m_freeBlocks) i)]
  have h := sum_update_range
    (f := fun j => (srl.rangeLists j).m_freeBlocks)
    (v := (RangeList.Insert mem (srl.rangeLists (sizeClassOf (mem b).m_size)) b).m_freeBlocks)
    hc
  simp only [] at h
  have hv : (RangeList.Insert mem (srl.rangeLists (sizeClassOf (mem b).m_size)) b).m_freeBlocks =
      (srl.rangeLists (sizeClassOf (mem b).m_size)).m_freeBlocks + 1 := rfl
  omega

theorem srl_insert_FreeBytes (mem : Memory) (srl : SegregatedRangeLists) (b : ℕ)
    (hc : sizeClassOf (mem b).m_size < numRangeLists) :
    (SegregatedRangeLists.Insert mem srl b).FreeBytes =
      srl.FreeBytes + (mem b).m_size := by
  unfold SegregatedRangeLists.Insert SegregatedRangeLists.FreeBytes
  simp only []
  rw [Finset.sum_congr rfl
    (fun i _ => update_proj srl.rangeLists _ _ (fun rl => rl.m_freeBytes) i)]
  have h := sum_update_range
    (f := fun j => (srl.rangeLists j).m_freeBytes)
    (v := (RangeList.Insert mem (srl.rangeLists (sizeClassOf (mem b).m_size)) b).m_freeBytes)
    hc
  simp only [] at h
  have hv : (RangeList.Insert mem (srl.rangeLists (sizeClassOf (mem b).m_size)) b).m_freeBytes =
      (srl.rangeLists (sizeClassOf (mem b).m_size)).m_freeBytes + (mem b).m_size := rfl
  omega

theorem srl_remove_FreeBlocks (mem : Memory) (srl : SegregatedRangeLists) (b : ℕ)
    (hc : sizeClassOf (mem b).m_size < numRangeLists)
    (h1 : 1 ≤ (srl.rangeLists (sizeClassOf (mem b).m_size)).m_freeBlocks) :
    (SegregatedRangeLists.Remove mem srl b).FreeBlocks + 1 = srl.FreeBlocks := by
  unfold SegregatedRangeLists.Remove SegregatedRangeLists.FreeBlocks
  simp only []
  rw [Finset.sum_congr rfl
    (fun i _ => update_proj srl.rangeLists _ _ (fun rl => rl.m_freeBlocks) i)]
  have h := sum_update_range
    (f := fun j => (srl.rangeLists j).m_freeBlocks)
    (v := (RangeList.Remove mem (srl.rangeLists (sizeClassOf (mem b).m_size)) b).m_freeBlocks)
    hc
  simp only [] at h
  have hv : (RangeList.Remove mem (srl.rangeLists (sizeClassOf (mem b).m_size)) b).m_freeBlocks =
      (srl.rangeLists (sizeClassOf (mem b).m_size)).m_freeBlocks - 1 := rfl
  omega

theorem srl_remove_FreeBytes (mem : Memory) (srl : SegregatedRangeLists) (b : ℕ)
    (hc : sizeClassOf (mem b).m_size < numRangeLists)
    (h1 : (mem b).m_size ≤ (srl.rangeLists (sizeClassOf (mem b).m_size)).m_freeBytes) :
    (SegregatedRangeLists.Remove mem srl b).FreeBytes + (mem b).m_size =
      srl.FreeBytes := by
  unfold SegregatedRangeLists.Remove SegregatedRangeLists.FreeBytes
  simp only []
  rw [Finset.sum_congr rfl
    (fun i _ => update_proj srl.rangeLists _ _ (fun rl => rl.m_freeBytes) i)]
  have h := sum_update_range
    (f := fun j => (srl.rangeLists j).m_freeBytes)
    (v := (RangeList.Remove mem (srl.rangeLists (sizeClassOf (mem b).m_size)) b).m_freeBytes)
    hc
  simp only [] at h
  have hv : (RangeList.Remove mem (srl.rangeLists (sizeClassOf (mem b).m_size)) b).m_freeBytes =
      (srl.rangeLists (sizeClassOf (mem b).m_size)).m_freeBytes - (mem b).m_size := rfl
  omega

/-! ### state-projection lemmas -/

theorem removeFromFreelist_mem_eq (st : Impl) (q : ℕ) :
    (st.removeFromFreelist q).mem =
      (st.mem.write q poisonedBlock).write
        (q + (st.mem q).m_size - sizeofFreedBlock) poisonedBlock := rfl

theorem removeFromFreelist_mem_other (st : Impl) (q a : ℕ) (h1 : a ≠ q)
    (h2 : a ≠ q + (st.mem q).m_size - sizeofFreedBlock) :
    (st.removeFromFreelist q).mem a = st.mem a := by
  rw [removeFromFreelist_mem_eq, Memory.write_apply, if_neg h2,
    Memory.write_apply, if_neg h1]

theorem removeFromFreelist_mem_head (st : Impl) (q : ℕ) :
    (st.removeFromFreelist q).mem q = poisonedBlock := by
  rw [removeFromFreelist_mem_eq, Memory.write_apply]
  split_ifs with h
  · rfl
  · rw [Memory.write_apply, if_pos rfl]

theorem removeFromFreelist_btm_eq (st : Impl) (q : ℕ) :
    (st.removeFromFreelist q).m_boundaryTagManager =
      { m_freeBlocks := st.m_boundaryTagManager.m_freeBlocks - 1,
        m_freeBytes := st.m_boundaryTagManager.m_freeBytes - (st.mem q).m_size } := rfl

theorem removeFromFreelist_srl_eq (st : Impl) (q : ℕ) :
    (st.removeFromFreelist q).m_segregatedRangeLists =
      SegregatedRangeLists.Remove st.mem st.m_segregatedRangeLists q := rfl

theorem removeFromFreelist_stats_eq (st : Impl) (q : ℕ) :
    (st.removeFromFreelist q).m_stats =
      st.m_stats.OnRemoveFromFreelist (st.mem q).m_size := rfl

theorem removeFromFreelist_pool_eq (st : Impl) (q : ℕ) :
    (st.removeFromFreelist q).m_pool = st.m_pool := rfl

theorem addToFreelist_mem_header (st : Impl) (p size : ℕ)
    (h : sizeofFreedBlock < size) :
    (st.addToFreelist p size).mem p =
      { m_magic := s_magic, prev := (st.mem p).prev, next := (st.mem p).next,
        m_size := size, m_id := s_headerId } := by
  show ((st.mem.write p _).write (p + size - sizeofFreedBlock) _) p = _
  rw [Memory.write_apply, if_neg (by unfold sizeofFreedBlock at *; omega),
    Memory.write_apply, if_pos rfl]

theorem addToFreelist_mem_footer_fields (st : Impl) (p size : ℕ) :
    ((st.addToFreelist p size).mem (p + size - sizeofFreedBlock)).m_size = size ∧
    ((st.addToFreelist p size).mem (p + size - sizeofFreedBlock)).m_id = s_footerId ∧
    ((st.addToFreelist p size).mem (p + size - sizeofFreedBlock)).m_magic = s_magic := by
  refine ⟨?_, ?_, ?_⟩
  · show (((st.mem.write p _).write (p + size - sizeofFreedBlock) _)
        (p + size - sizeofFreedBlock)).m_size = size
    rw [Memory.write_apply, if_pos rfl]
  · show (((st.mem.write p _).write (p + size - sizeofFreedBlock) _)
        (p + size - sizeofFreedBlock)).m_id = s_footerId
    rw [Memory.write_apply, if_pos rfl]
  · show (((st.mem.write p _).write (p + size - sizeofFreedBlock) _)
        (p + size - sizeofFreedBlock)).m_magic = s_magic
    rw [Memory.write_apply, if_pos rfl]

theorem addToFreelist_mem_other (st : Impl) (p size a : ℕ) (h1 : a ≠ p)
    (h2 : a ≠ p + size - sizeofFreedBlock) :
    (st.addToFreelist p size).mem a = st.mem a := by
  show ((st.mem.write p _).write (p + size - sizeofFreedBlock) _) a = _
  rw [Memory.write_apply, if_neg h2, Memory.write_apply, if_neg h1]

theorem addToFreelist_btm_eq (st : Impl) (p size : ℕ) :
    (st.addToFreelist p size).m_boundaryTagManager =
      { m_freeBlocks := st.m_boundaryTagManager.m_freeBlocks + 1,
        m_freeBytes := st.m_boundaryTagManager.m_freeBytes + size } := rfl

theorem addToFreelist_srl_eq (st : Impl) (p size : ℕ) :
    (st.addToFreelist p size).m_segregatedRangeLists =
      SegregatedRangeLists.Insert (st.addToFreelist p size).mem
        st.m_segregatedRangeLists p := rfl

theorem addToFreelist_stats_eq (st : Impl) (p size : ℕ) :
    (st.addToFreelist p size).m_stats = st.m_stats.OnAddToFreelist size := rfl

theorem addToFreelist_pool_eq (st : Impl) (p size : ℕ) :
    (st.addToFreelist p size).m_pool = st.m_pool := rfl

/-! ### Deallocate under known probe outcomes -/

theorem deallocate_none_some (st : Impl) (p size q : ℕ)
    (hpre : BoundaryTagManager.PrecedingBlock st.mem p poolBase = none)
    (hfol : BoundaryTagManager.FollowingBlock st.mem p size
      (poolBase + st.m_pool.da_pos) = some q) :
    st.Deallocate p size =
      (({ st with m_stats := st.m_stats.OnDeallocate size }).removeFromFreelist q
        ).addToFreelist p (size + (st.mem q).m_size) := by
  unfold Impl.Deallocate Impl.coalesce Impl.coalesce1
  simp only [hpre, hfol]

theorem deallocate_none_none (st : Impl) (p size : ℕ)
    (hpre : BoundaryTagManager.PrecedingBlock st.mem p poolBase = none)
    (hfol : BoundaryTagManager.FollowingBlock st.mem p size
      (poolBase + st.m_pool.da_pos) = none) :
    st.Deallocate p size =
      ({ st with m_stats := st.m_stats.OnDeallocate size }).addToFreelist p size := by
  unfold Impl.Deallocate Impl.coalesce Impl.coalesce1
  simp only [hpre, hfol]

/-! ### C3 -/

/-- C3: split-then-coalesce round trip.  In any state whose free structure
leads Find(s) to a tracked free block of size s + t at address p (s, t both
valid sizes in the spec's sense — at least 2 * sizeof(FreedBlock) bytes, so
header and footer of every tag pair written along this path occupy disjoint
byte ranges and the record-granularity memory model is byte-faithful; they
also pass the code's IsValidSize — the block inside the committed pool, no
free neighbor directly before it, and the tallies covering the block),
Allocate(s) returns p and leaves a single tracked free tail of size t at
p + s: the tail header is in place at p + s, the old header at p is
poisoned, and the boundary-tag block count is back to its old value while
its byte total dropped by exactly s.  An immediately following
Deallocate(p, s) finds that tail with the following-neighbor probe, merges
it, and restores a tracked free block of size s + t at p, with the
boundary-tag tally, the Stats current-free tally and the segregated-list
totals all returned to their values before the Allocate. -/
theorem claim_C3_split_then_coalesce_round_trip (st : Impl) (s t p : ℕ)
    (h1 : SegregatedRangeLists.Find st.mem st.m_segregatedRangeLists s = some p)
    (h2 : (st.mem p).m_size = s + t)
    (h3 : IsValidSize s = true)
    (h4 : IsValidSize t = true)
    (h3a : 2 * sizeofFreedBlock ≤ s)
    (h4a : 2 * sizeofFreedBlock ≤ t)
    (h5 : p + (s + t) ≤ st.m_pool.da_pos)
    (h6 : p = 0 ∨ (sizeofFreedBlock ≤ p ∧
      (st.mem (p - sizeofFreedBlock)).IsFreedBlock s_footerId = false))
    (h7 : 1 ≤ st.m_boundaryTagManager.m_freeBlocks)
    (h8 : s + t ≤ st.m_boundaryTagManager.m_freeBytes)
    (h9 : 1 ≤ st.m_stats.m_currentFreeBlocks)
    (h10 : s + t ≤ st.m_stats.m_currentFreeBytes)
    (h11 : s + t ≤ 2 ^ 31)
    (h12 : 1 ≤ (st.m_segregatedRangeLists.rangeLists (sizeClassOf (s + t))).m_freeBlocks)
    (h13 : s + t ≤ (st.m_segregatedRangeLists.rangeLists (sizeClassOf (s + t))).m_freeBytes) :
    (st.Allocate s).1 = some p ∧
    (((st.Allocate s).2.mem (p + s)).m_size = t ∧
      ((st.Allocate s).2.mem (p + s)).IsFreedBlock s_headerId = true ∧
      ((st.Allocate s).2.mem p).IsFreedBlock s_headerId = false) ∧
    ((st.Allocate s).2.m_boundaryTagManager.m_freeBlocks
        = st.m_boundaryTagManager.m_freeBlocks ∧
      (st.Allocate s).2.m_boundaryTagManager.m_freeBytes + s
        = st.m_boundaryTagManager.m_freeBytes) ∧
    ((((st.Allocate s).2.Deallocate p s).mem p).m_size = s + t ∧
      (((st.Allocate s).2.Deallocate p s).mem p).IsFreedBlock s_headerId = true) ∧
    ((st.Allocate s).2.Deallocate p s).m_boundaryTagManager.m_freeBlocks
        = st.m_boundaryTagManager.m_freeBlocks ∧
    ((st.Allocate s).2.Deallocate p s).m_boundaryTagManager.m_freeBytes
        = st.m_boundaryTagManager.m_freeBytes ∧
    ((st.Allocate s).2.Deallocate p s).m_stats.m_currentFreeBlocks
        = st.m_stats.m_currentFreeBlocks ∧
    ((st.Allocate s).2.Deallocate p s).m_stats.m_currentFreeBytes
        = st.m_stats.m_currentFreeBytes ∧
    ((st.Allocate s).2.Deallocate p s).m_segregatedRangeLists.FreeBlocks
        = st.m_segregatedRangeLists.FreeBlocks ∧
    ((st.Allocate s).2.Deallocate p s).m_segregatedRangeLists.FreeBytes
        = st.m_segregatedRangeLists.FreeBytes := by
  have hS : sizeofFreedBlock = 20 := rfl
  have hs32 : 32 ≤ s := isValidSize_ge32 h3
  have ht32 : 32 ≤ t := isValidSize_ge32 h4
  set A := st.removeFromFreelist p with hAdef
  set B := A.addToFreelist (p + s) t with hBdef
  set stA := { B with m_stats := B.m_stats.OnAllocate s } with hstAdef
  have htks : st.takeAndSplitFreeBlock s = (some p, B) := by
    unfold Impl.takeAndSplitFreeBlock
    rw [h1]
    show (if IsValidSize ((st.mem p).m_size - s) = true then
        (some p, (st.removeFromFreelist p).addToFreelist (p + s) ((st.mem p).m_size - s))
      else (some p, st.removeFromFreelist p)) = _
    rw [h2, show s + t - s = t from by omega, if_pos h4]
  have halloc : st.Allocate s = (some p, stA) := by
    unfold Impl.Allocate
    rw [htks]
  -- memory after the allocation
  have hmemA_p : A.mem p = poisonedBlock := removeFromFreelist_mem_head st p
  have hmemB_p : B.mem p = poisonedBlock := by
    rw [hBdef, addToFreelist_mem_other A (p + s) t p (by omega) (by rw [hS]; omega)]
    exact hmemA_p
  have hmemB_tail : B.mem (p + s) =
      { m_magic := s_magic, prev := (A.mem (p + s)).prev,
        next := (A.mem (p + s)).next, m_size := t, m_id := s_headerId } := by
    rw [hBdef]
    exact addToFreelist_mem_header A (p + s) t (by rw [hS]; omega)
  have htailsize : (B.mem (p + s)).m_size = t := by rw [hmemB_tail]
  -- the probes Deallocate(p, s) will run on the post-allocation state
  have hpre2 : BoundaryTagManager.PrecedingBlock B.mem p poolBase = none := by
    rcases h6 with h6 | ⟨h6a, h6b⟩
    · subst h6
      rfl
    · rw [hS] at h6a
      unfold BoundaryTagManager.PrecedingBlock
      rw [if_neg (by rw [show poolBase = 0 from rfl]; omega)]
      have hfoot : B.mem (p - sizeofFreedBlock) = st.mem (p - sizeofFreedBlock) := by
        rw [hBdef, addToFreelist_mem_other A (p + s) t _ (by rw [hS]; omega)
          (by rw [hS]; omega)]
        rw [hAdef, removeFromFreelist_mem_other st p _ (by rw [hS]; omega)
          (by rw [h2, hS]; omega)]
      rw [hfoot]
      simp [h6b]
  have hpoolB : B.m_pool.da_pos = st.m_pool.da_pos := by
    rw [hBdef, addToFreelist_pool_eq, hAdef, removeFromFreelist_pool_eq]
  have hfol2 : BoundaryTagManager.FollowingBlock B.mem p s
      (poolBase + B.m_pool.da_pos) = some (p + s) := by
    unfold BoundaryTagManager.FollowingBlock
    rw [hpoolB, if_neg (by rw [show poolBase = 0 from rfl]; omega), hmemB_tail]
    simp [FreedBlock.IsFreedBlock]
  -- the deallocation equation
  have hdeq : stA.Deallocate p s =
      (({ stA with m_stats := stA.m_stats.OnDeallocate s }).removeFromFreelist (p + s)
        ).addToFreelist p (s + (stA.mem (p + s)).m_size) :=
    deallocate_none_some stA p s (p + s) hpre2 hfol2
  have htailsizeA : (stA.mem (p + s)).m_size = t := htailsize
  rw [htailsizeA] at hdeq
  set D := { stA with m_stats := stA.m_stats.OnDeallocate s } with hDdef
  set C := D.removeFromFreelist (p + s) with hCdef
  -- final memory
  have hmemF_p : (C.addToFreelist p (s + t)).mem p =
      { m_magic := s_magic, prev := (C.mem p).prev, next := (C.mem p).next,
        m_size := s + t, m_id := s_headerId } :=
    addToFreelist_mem_header C p (s + t) (by rw [hS]; omega)
  have hclassST : sizeClassOf (s + t) < numRangeLists := by
    have hle := sizeClassOf_le_of_le_two_pow (c := 31) h11
    rw [show numRangeLists = 32 from rfl]
    omega
  have hclassT : sizeClassOf t < numRangeLists := by
    have hm1 := sizeClassOf_mono (show t ≤ s + t by omega)
    have hm2 := sizeClassOf_le_of_le_two_pow (c := 31) h11
    rw [show numRangeLists = 32 from rfl]
    omega
  have hsrlA : A.m_segregatedRangeLists
      = SegregatedRangeLists.Remove st.mem st.m_segregatedRangeLists p := rfl
  have hsrlB : B.m_segregatedRangeLists
      = SegregatedRangeLists.Insert B.mem A.m_segregatedRangeLists (p + s) := rfl
  have hsrlC : C.m_segregatedRangeLists
      = SegregatedRangeLists.Remove B.mem B.m_segregatedRangeLists (p + s) := rfl
  have hsrlF : (C.addToFreelist p (s + t)).m_segregatedRangeLists
      = SegregatedRangeLists.Insert (C.addToFreelist p (s + t)).mem
          C.m_segregatedRangeLists p := rfl
  have hcST : sizeClassOf (st.mem p).m_size < numRangeLists := by
    rw [h2]
    exact hclassST
  have hcB : sizeClassOf ((B.mem (p + s)).m_size) < numRangeLists := by
    rw [htailsize]
    exact hclassT
  have hFp_size : ((C.addToFreelist p (s + t)).mem p).m_size = s + t := by
    rw [hmemF_p]
  have hcF : sizeClassOf (((C.addToFreelist p (s + t)).mem) p).m_size < numRangeLists := by
    rw [hFp_size]
    exact hclassST
  have hcnt2 : 1 ≤ (B.m_segregatedRangeLists.rangeLists
      (sizeClassOf ((B.mem (p + s)).m_size))).m_freeBlocks := by
    rw [hsrlB]
    unfold SegregatedRangeLists.Insert
    simp only [Function.update_same]
    show 1 ≤ (A.m_segregatedRangeLists.rangeLists
      (sizeClassOf ((B.mem (p + s)).m_size))).m_freeBlocks + 1
    omega
  have hbyte2 : (B.mem (p + s)).m_size ≤ (B.m_segregatedRangeLists.rangeLists
      (sizeClassOf ((B.mem (p + s)).m_size))).m_freeBytes := by
    rw [hsrlB]
    unfold SegregatedRangeLists.Insert
    simp only [Function.update_same]
    show _ ≤ (A.m_segregatedRangeLists.rangeLists
      (sizeClassOf ((B.mem (p + s)).m_size))).m_freeBytes + (B.mem (p + s)).m_size
    omega
  have e1 : (C.addToFreelist p (s + t)).m_segregatedRangeLists.FreeBlocks
      = C.m_segregatedRangeLists.FreeBlocks + 1 := by
    rw [hsrlF]
    exact srl_insert_FreeBlocks _ _ _ hcF
  have e2 : C.m_segregatedRangeLists.FreeBlocks + 1
      = B.m_segregatedRangeLists.FreeBlocks := by
    rw [hsrlC]
    exact srl_remove_FreeBlocks B.mem B.m_segregatedRangeLists (p + s) hcB hcnt2
  have e3 : B.m_segregatedRangeLists.FreeBlocks
      = A.m_segregatedRangeLists.FreeBlocks + 1 := by
    rw [hsrlB]
    exact srl_insert_FreeBlocks B.mem A.m_segregatedRangeLists (p + s) hcB
  have e4 : A.m_segregatedRangeLists.FreeBlocks + 1
      = st.m_segregatedRangeLists.FreeBlocks := by
    rw [hsrlA]
    refine srl_remove_FreeBlocks st.mem st.m_segregatedRangeLists p hcST ?_
    rw [h2]
    exact h12
  have f1 : (C.addToFreelist p (s + t)).m_segregatedRangeLists.FreeBytes
      = C.m_segregatedRangeLists.FreeBytes
        + (((C.addToFreelist p (s + t)).mem) p).m_size := by
    rw [hsrlF]
    exact srl_insert_FreeBytes _ _ _ hcF
  have f2 : C.m_segregatedRangeLists.FreeBytes + (B.mem (p + s)).m_size
      = B.m_segregatedRangeLists.FreeBytes := by
    rw [hsrlC]
    exact srl_remove_FreeBytes B.mem B.m_segregatedRangeLists (p + s) hcB hbyte2
  have f3 : B.m_segregatedRangeLists.FreeBytes
      = A.m_segregatedRangeLists.FreeBytes + (B.mem (p + s)).m_size := by
    rw [hsrlB]
    exact srl_insert_FreeBytes B.mem A.m_segregatedRangeLists (p + s) hcB
  have f4 : A.m_segregatedRangeLists.FreeBytes + (st.mem p).m_size
      = st.m_segregatedRangeLists.FreeBytes := by
    rw [hsrlA]
    refine srl_remove_FreeBytes st.mem st.m_segregatedRangeLists p hcST ?_
    rw [h2]
    exact h13
  rw [htailsize] at f2 f3
  rw [h2] at f4
  rw [hFp_size] at f1
  refine ⟨by rw [halloc], ⟨?_, ?_, ?_⟩, ⟨?_, ?_⟩, ⟨?_, ?_⟩, ?_, ?_, ?_, ?_, ?_, ?_⟩
  · rw [halloc]
    exact htailsize
  · rw [halloc]
    show (B.mem (p + s)).IsFreedBlock s_headerId = true
    rw [hmemB_tail]
    simp [FreedBlock.IsFreedBlock, s_headerId, s_magic]
  · rw [halloc]
    show (B.mem p).IsFreedBlock s_headerId = false
    rw [hmemB_p]
    simp [FreedBlock.IsFreedBlock, poisonedBlock, s_headerId, s_magic]
  · rw [halloc]
    show st.m_boundaryTagManager.m_freeBlocks - 1 + 1 = _
    omega
  · rw [halloc]
    show st.m_boundaryTagManager.m_freeBytes - (st.mem p).m_size + t + s = _
    rw [h2]
    omega
  · rw [halloc]
    show ((stA.Deallocate p s).mem p).m_size = s + t
    rw [hdeq, hmemF_p]
  · rw [halloc]
    show ((stA.Deallocate p s).mem p).IsFreedBlock s_headerId = true
    rw [hdeq, hmemF_p]
    simp [FreedBlock.IsFreedBlock, s_headerId, s_magic]
  · rw [halloc]
    show ((stA.Deallocate p s).m_boundaryTagManager).m_freeBlocks = _
    rw [hdeq]
    show st.m_boundaryTagManager.m_freeBlocks - 1 + 1 - 1 + 1 = _
    omega
  · rw [halloc]
    show ((stA.Deallocate p s).m_boundaryTagManager).m_freeBytes = _
    rw [hdeq]
    have hbytes : ((C.addToFreelist p (s + t)).m_boundaryTagManager).m_freeBytes
        = st.m_boundaryTagManager.m_freeBytes - (st.mem p).m_size + t
          - (D.mem (p + s)).m_size + (s + t) := rfl
    rw [hbytes, h2, show (D.mem (p + s)).m_size = t from htailsize]
    omega
  · rw [halloc]
    show ((stA.Deallocate p s).m_stats).m_currentFreeBlocks = _
    rw [hdeq]
    show st.m_stats.m_currentFreeBlocks - 1 + 1 - 1 + 1 = _
    omega
  · rw [halloc]
    show ((stA.Deallocate p s).m_stats).m_currentFreeBytes = _
    rw [hdeq]
    have hbytes : ((C.addToFreelist p (s + t)).m_stats).m_currentFreeBytes
        = st.m_stats.m_currentFreeBytes - (st.mem p).m_size + t
          - (D.mem (p + s)).m_size + (s + t) := rfl
    rw [hbytes, h2, show (D.mem (p + s)).m_size = t from htailsize]
    omega
  · rw [halloc]
    show ((stA.Deallocate p s).m_segregatedRangeLists).FreeBlocks = _
    rw [hdeq]
    omega
  · rw [halloc]
    show ((stA.Deallocate p s).m_segregatedRangeLists).FreeBytes = _
    rw [hdeq]
    omega

/-- witness for C3: the round trip on stBlock96 with s = t = 48 — both at
least 2 * sizeof(FreedBlock) = 40, so header and footer of the tail block
(at 48 and 76) and of the restored 96-byte block (at 0 and 76) are disjoint
and the record-granularity memory matches the program byte for byte.
Allocate(48) takes the front half of the 96-byte block at 0, leaves the
48-byte tail at 48, and Deallocate(0, 48) merges them back. -/
theorem claim_C3_witness :
    (stBlock96.Allocate 48).1 = some 0 ∧
    (((stBlock96.Allocate 48).2.mem (0 + 48)).m_size = 48 ∧
      ((stBlock96.Allocate 48).2.mem (0 + 48)).IsFreedBlock s_headerId = true ∧
      ((stBlock96.Allocate 48).2.mem 0).IsFreedBlock s_headerId = false) ∧
    ((stBlock96.Allocate 48).2.m_boundaryTagManager.m_freeBlocks
        = stBlock96.m_boundaryTagManager.m_freeBlocks ∧
      (stBlock96.Allocate 48).2.m_boundaryTagManager.m_freeBytes + 48
        = stBlock96.m_boundaryTagManager.m_freeBytes) ∧
    ((((stBlock96.Allocate 48).2.Deallocate 0 48).mem 0).m_size = 48 + 48 ∧
      (((stBlock96.Allocate 48).2.Deallocate 0 48).mem 0).IsFreedBlock s_headerId = true) ∧
    ((stBlock96.Allocate 48).2.Deallocate 0 48).m_boundaryTagManager.m_freeBlocks
        = stBlock96.m_boundaryTagManager.m_freeBlocks ∧
    ((stBlock96.Allocate 48).2.Deallocate 0 48).m_boundaryTagManager.m_freeBytes
        = stBlock96.m_boundaryTagManager.m_freeBytes ∧
    ((stBlock96.Allocate 48).2.Deallocate 0 48).m_stats.m_currentFreeBlocks
        = stBlock96.m_stats.m_currentFreeBlocks ∧
    ((stBlock96.Allocate 48).2.Deallocate 0 48).m_stats.m_currentFreeBytes
        = stBlock96.m_stats.m_currentFreeBytes ∧
    ((stBlock96.Allocate 48).2.Deallocate 0 48).m_segregatedRangeLists.FreeBlocks
        = stBlock96.m_segregatedRangeLists.FreeBlocks ∧
    ((stBlock96.Allocate 48).2.Deallocate 0 48).m_segregatedRangeLists.FreeBytes
        = stBlock96.m_segregatedRangeLists.FreeBytes :=
  claim_C3_split_then_coalesce_round_trip stBlock96 48 48 0
    (by decide) (by decide) (by decide) (by decide) (by decide) (by decide)
    (by decide) (Or.inl rfl) (by decide) (by decide) (by decide) (by decide)
    (by decide) (by decide) (by decide)

theorem deallocate_some_none (st : Impl) (p size q : ℕ)
    (hpre : BoundaryTagManager.PrecedingBlock st.mem p poolBase = some q)
    (hfol : BoundaryTagManager.FollowingBlock (st.removeFromFreelist q).mem
      (p - (st.mem q).m_size) (size + (st.mem q).m_size)
      (poolBase + st.m_pool.da_pos) = none) :
    st.Deallocate p size =
      (({ st with m_stats := st.m_stats.OnDeallocate size }).removeFromFreelist q
        ).addToFreelist (p - (st.mem q).m_size) (size + (st.mem q).m_size) := by
  have hbridge : ({ st with m_stats := st.m_stats.OnDeallocate size
      }.removeFromFreelist q).mem = (st.removeFromFreelist q).mem := rfl
  have hpool : ({ st with m_stats := st.m_stats.OnDeallocate size
      }.removeFromFreelist q).m_pool = st.m_pool := rfl
  unfold Impl.Deallocate Impl.coalesce Impl.coalesce1
  simp only [hpre, hbridge, hpool, hfol]

theorem deallocate_some_some (st : Impl) (p size q r : ℕ)
    (hpre : BoundaryTagManager.PrecedingBlock st.mem p poolBase = some q)
    (hfol : BoundaryTagManager.FollowingBlock (st.removeFromFreelist q).mem
      (p - (st.mem q).m_size) (size + (st.mem q).m_size)
      (poolBase + st.m_pool.da_pos) = some r) :
    st.Deallocate p size =
      ((({ st with m_stats := st.m_stats.OnDeallocate size }).removeFromFreelist q
        ).removeFromFreelist r).addToFreelist (p - (st.mem q).m_size)
        (size + (st.mem q).m_size + ((st.removeFromFreelist q).mem r).m_size) := by
  have hbridge : ({ st with m_stats := st.m_stats.OnDeallocate size
      }.removeFromFreelist q).mem = (st.removeFromFreelist q).mem := rfl
  have hpool : ({ st with m_stats := st.m_stats.OnDeallocate size
      }.removeFromFreelist q).m_pool = st.m_pool := rfl
  unfold Impl.Deallocate Impl.coalesce Impl.coalesce1
  simp only [hpre, hbridge, hpool, hfol]

/-! ### C10 -/

/-- C10: for a Deallocate(p, size) whose preconditions hold, let n be the
number of free neighbors the two boundary-tag probes detect, exactly as
Coalesce runs them (the following probe after any preceding merge).  Then
n ≤ 2, the tracked free-block count changes by exactly 1 - n, and the
tracked free-byte total rises by exactly size: each detected neighbor is
removed from the tallies and its bytes return inside the combined block.
This holds for both the BoundaryTagManager tally and the Stats current-free
tally; the hypotheses say the tallies cover whatever blocks the probes
detect, which is the tracking invariant of the allocator. -/
theorem claim_C10_deallocate_count_and_bytes (st : Impl) (p size : ℕ)
    (gpre : ∀ q, BoundaryTagManager.PrecedingBlock st.mem p poolBase = some q →
      ((st.mem q).m_size ≤ st.m_boundaryTagManager.m_freeBytes ∧
       1 ≤ st.m_boundaryTagManager.m_freeBlocks ∧
       (st.mem q).m_size ≤ st.m_stats.m_currentFreeBytes ∧
       1 ≤ st.m_stats.m_currentFreeBlocks))
    (gfol0 : ∀ r, BoundaryTagManager.PrecedingBlock st.mem p poolBase = none →
      BoundaryTagManager.FollowingBlock st.mem p size
        (poolBase + st.m_pool.da_pos) = some r →
      ((st.mem r).m_size ≤ st.m_boundaryTagManager.m_freeBytes ∧
       1 ≤ st.m_boundaryTagManager.m_freeBlocks ∧
       (st.mem r).m_size ≤ st.m_stats.m_currentFreeBytes ∧
       1 ≤ st.m_stats.m_currentFreeBlocks))
    (gfol1 : ∀ q r, BoundaryTagManager.PrecedingBlock st.mem p poolBase = some q →
      BoundaryTagManager.FollowingBlock (st.removeFromFreelist q).mem
        (p - (st.mem q).m_size) (size + (st.mem q).m_size)
        (poolBase + st.m_pool.da_pos) = some r →
      (((st.removeFromFreelist q).mem r).m_size + (st.mem q).m_size
          ≤ st.m_boundaryTagManager.m_freeBytes ∧
       2 ≤ st.m_boundaryTagManager.m_freeBlocks ∧
       ((st.removeFromFreelist q).mem r).m_size + (st.mem q).m_size
          ≤ st.m_stats.m_currentFreeBytes ∧
       2 ≤ st.m_stats.m_currentFreeBlocks)) :
    Impl.detectedFreeNeighbors st p size ≤ 2 ∧
    (st.Deallocate p size).m_boundaryTagManager.m_freeBlocks
        + Impl.detectedFreeNeighbors st p size
      = st.m_boundaryTagManager.m_freeBlocks + 1 ∧
    (st.Deallocate p size).m_boundaryTagManager.m_freeBytes
      = st.m_boundaryTagManager.m_freeBytes + size ∧
    (st.Deallocate p size).m_stats.m_currentFreeBlocks
        + Impl.detectedFreeNeighbors st p size
      = st.m_stats.m_currentFreeBlocks + 1 ∧
    (st.Deallocate p size).m_stats.m_currentFreeBytes
      = st.m_stats.m_currentFreeBytes + size := by
  cases hpre : BoundaryTagManager.PrecedingBlock st.mem p poolBase with
  | none =>
    cases hfol : BoundaryTagManager.FollowingBlock st.mem p size
        (poolBase + st.m_pool.da_pos) with
    | none =>
      have hn : Impl.detectedFreeNeighbors st p size = 0 := by
        unfold Impl.detectedFreeNeighbors
        simp only [hpre, hfol]
      have hdeq := deallocate_none_none st p size hpre hfol
      rw [hdeq, hn]
      refine ⟨by omega, ?_, ?_, ?_, ?_⟩
      · show st.m_boundaryTagManager.m_freeBlocks + 1 + 0 = _
        omega
      · rfl
      · show st.m_stats.m_currentFreeBlocks + 1 + 0 = _
        omega
      · rfl
    | some r =>
      obtain ⟨g1, g2, g3, g4⟩ := gfol0 r hpre hfol
      have hn : Impl.detectedFreeNeighbors st p size = 1 := by
        unfold Impl.detectedFreeNeighbors
        simp only [hpre, hfol]
      have hdeq := deallocate_none_some st p size r hpre hfol
      rw [hdeq, hn]
      refine ⟨by omega, ?_, ?_, ?_, ?_⟩
      · show st.m_boundaryTagManager.m_freeBlocks - 1 + 1 + 1 = _
        omega
      · show st.m_boundaryTagManager.m_freeBytes - (st.mem r).m_size
            + (size + (st.mem r).m_size) = _
        omega
      · show st.m_stats.m_currentFreeBlocks - 1 + 1 + 1 = _
        omega
      · show st.m_stats.m_currentFreeBytes - (st.mem r).m_size
            + (size + (st.mem r).m_size) = _
        omega
  | some q =>
    obtain ⟨g1, g2, g3, g4⟩ := gpre q hpre
    cases hfol : BoundaryTagManager.FollowingBlock (st.removeFromFreelist q).mem
        (p - (st.mem q).m_size) (size + (st.mem q).m_size)
        (poolBase + st.m_pool.da_pos) with
    | none =>
      have hn : Impl.detectedFreeNeighbors st p size = 1 := by
        unfold Impl.detectedFreeNeighbors
        simp only [hpre, removeFromFreelist_pool_eq, hfol]
      have hdeq := deallocate_some_none st p size q hpre hfol
      rw [hdeq, hn]
      refine ⟨by omega, ?_, ?_, ?_, ?_⟩
      · show st.m_boundaryTagManager.m_freeBlocks - 1 + 1 + 1 = _
        omega
      · show st.m_boundaryTagManager.m_freeBytes - (st.mem q).m_size
            + (size + (st.mem q).m_size) = _
        omega
      · show st.m_stats.m_currentFreeBlocks - 1 + 1 + 1 = _
        omega
      · show st.m_stats.m_currentFreeBytes - (st.mem q).m_size
            + (size + (st.mem q).m_size) = _
        omega
    | some r =>
      obtain ⟨g5, g6, g7, g8⟩ := gfol1 q r hpre hfol
      have hn : Impl.detectedFreeNeighbors st p size = 2 := by
        unfold Impl.detectedFreeNeighbors
        simp only [hpre, removeFromFreelist_pool_eq, hfol]
      have hdeq := deallocate_some_some st p size q r hpre hfol
      rw [hdeq, hn]
      refine ⟨by omega, ?_, ?_, ?_, ?_⟩
      · show st.m_boundaryTagManager.m_freeBlocks - 1 - 1 + 1 + 2 = _
        omega
      · show st.m_boundaryTagManager.m_freeBytes - (st.mem q).m_size
            - ((st.removeFromFreelist q).mem r).m_size
            + (size + (st.mem q).m_size + ((st.removeFromFreelist q).mem r).m_size)
            = _
        omega
      · show st.m_stats.m_currentFreeBlocks - 1 - 1 + 1 + 2 = _
        omega
      · show st.m_stats.m_currentFreeBytes - (st.mem q).m_size
            - ((st.removeFromFreelist q).mem r).m_size
            + (size + (st.mem q).m_size + ((st.removeFromFreelist q).mem r).m_size)
            = _
        omega

/-- witness for C10: Deallocate(64, 64) on stOneBlock detects exactly one
free neighbor (the preceding 64-byte block at 0; the following probe stops
at the end of the committed pool), so the block count stays (1 - 1 = 0 net
change) and the byte totals rise by exactly 64. -/
theorem claim_C10_witness :
    Impl.detectedFreeNeighbors stOneBlock 64 64 ≤ 2 ∧
    (stOneBlock.Deallocate 64 64).m_boundaryTagManager.m_freeBlocks
        + Impl.detectedFreeNeighbors stOneBlock 64 64
      = stOneBlock.m_boundaryTagManager.m_freeBlocks + 1 ∧
    (stOneBlock.Deallocate 64 64).m_boundaryTagManager.m_freeBytes
      = stOneBlock.m_boundaryTagManager.m_freeBytes + 64 ∧
    (stOneBlock.Deallocate 64 64).m_stats.m_currentFreeBlocks
        + Impl.detectedFreeNeighbors stOneBlock 64 64
      = stOneBlock.m_stats.m_currentFreeBlocks + 1 ∧
    (stOneBlock.Deallocate 64 64).m_stats.m_currentFreeBytes
      = stOneBlock.m_stats.m_currentFreeBytes + 64 := by
  refine claim_C10_deallocate_count_and_bytes stOneBlock 64 64 ?_ ?_ ?_
  · intro q hq
    rw [show BoundaryTagManager.PrecedingBlock stOneBlock.mem 64 poolBase
      = some 0 from by decide] at hq
    cases hq
    exact ⟨by decide, by decide, by decide, by decide⟩
  · intro r h0 _
    rw [show BoundaryTagManager.PrecedingBlock stOneBlock.mem 64 poolBase
      = some 0 from by decide] at h0
    exact Option.noConfusion h0
  · intro q r hq hr
    rw [show BoundaryTagManager.PrecedingBlock stOneBlock.mem 64 poolBase
      = some 0 from by decide] at hq
    cases hq
    rw [show BoundaryTagManager.FollowingBlock
        (stOneBlock.removeFromFreelist 0).mem (64 - (stOneBlock.mem 0).m_size)
        (64 + (stOneBlock.mem 0).m_size) (poolBase + stOneBlock.m_pool.da_pos)
      = none from by decide] at hr
    exact Option.noConfusion hr
